import Mathlib

/-!
# PhumGame storefront: catalog view pipeline, shopping cart and accounts

A shallow embedding of `src/main.js`.

* JavaScript strings are `String`s; `trim` and `includes` are written out on the
  character list, `toLowerCase` and `localeCompare` belong to the host (they
  depend on Unicode tables and on the locale) and are fields of `Host`.
* JavaScript numbers are the rationals they stand for: identifiers and quantities
  are integers, prices are rationals. Comparisons are exact on doubles, so the
  view pipeline needs no rounding. Where the script adds or multiplies stored
  numbers, `Float64` gives the operation in double precision (`Float64.addItem`,
  `Float64.calculateTotal`); `addItem` and `calculateTotal` outside `Float64`
  are the same methods without rounding and agree with them where nothing is
  rounded (`Float64.addItem_eq_exact`, `Float64.calculateTotal_eq_exact`).
* `Array.prototype.sort` is the stable sort of the language standard, written as
  insertion sort on the comparator's sign.
* The three form controls read by `ProductSearch` (`search-input`,
  `category-filter`, `sort-filter`) are fields of the state; rendering
  (`displayProducts`, `updateCartCount`, `showNotification`) changes no data and
  is left out.
* The `cart` entry of local storage is the list of cart lines itself; `Store` holds
  the entries `users`, `currentUser` and `cart` for the claims on `Auth`.
* The two patterns of `Auth` are values of `Regex`, run by `Regex.run`, which
  returns every way the pattern can match; `test` asks for one match of the whole
  string. The clock readings of `register` and `login` are arguments.
* `Heap` repeats the methods of `ProductSearch` with array objects told apart by
  address, to state that the in-place `sort` never reaches the product list;
  `Heap.runEvents_spec` relates it to the model by value.
-/

namespace PhumGame

/-! ## Strings -/

/-- White space and line terminators of the language standard, the characters that
`String.prototype.trim` strips. -/
def isWhiteSpace (c : Char) : Bool :=
  decide (c.toNat ∈ [0x09, 0x0A, 0x0B, 0x0C, 0x0D, 0x20, 0xA0, 0x1680, 0x2028, 0x2029,
    0x202F, 0x205F, 0x3000, 0xFEFF]) || (decide (0x2000 ≤ c.toNat) && decide (c.toNat ≤ 0x200A))

/-- The method `String.prototype.trim`: white space removed from both ends. -/
def trim (s : String) : String :=
  ⟨(s.data.dropWhile isWhiteSpace).rdropWhile isWhiteSpace⟩

/-- The method `String.prototype.includes`: `t` occurs in `s` as a contiguous run of characters. -/
def includes (s t : String) : Bool :=
  s.data.tails.any (fun u => t.data.isPrefixOf u)

/-- The host's string services that depend on Unicode data and on the locale.
The laws are those the language standard gives: `localeCompare` is a consistent
comparator (a total preorder on strings), and white space characters have no case
mapping, so `toLowerCase` returns a string of white space as it is. -/
structure Host where
  /-- the method `String.prototype.toLowerCase` -/
  toLowerCase : String → String
  /-- the method `String.prototype.localeCompare` -/
  localeCompare : String → String → Int
  localeCompare_total : ∀ a b, localeCompare a b ≤ 0 ∨ localeCompare b a ≤ 0
  localeCompare_trans : ∀ a b c, localeCompare a b ≤ 0 → localeCompare b c ≤ 0 →
    localeCompare a c ≤ 0
  /-- white space has no case: lower-casing leaves a blank string as it is -/
  toLowerCase_blank : ∀ s : String, s.data.all isWhiteSpace = true → toLowerCase s = s

/-- Comparison of two strings by code points, with the sign convention of
`localeCompare`. -/
def codePointCompare (a b : String) : Int :=
  if a.data < b.data then -1 else if b.data < a.data then 1 else 0

/-! ## Catalog view: `ProductSearch` -/

/-- A record of `products.json`. -/
structure Product where
  id : Int
  name : String
  description : String
  category : String
  price : ℚ
  stock : Int
  image : String
deriving DecidableEq

/-- The `ProductSearch` object together with the values of the three form controls
it reads. -/
structure ProductSearch where
  products : List Product
  filteredProducts : List Product
  /-- value of the element `search-input` -/
  searchInput : String
  /-- value of the element `category-filter` -/
  categoryFilter : String
  /-- value of the element `sort-filter` -/
  sortFilter : String
deriving DecidableEq

/-- The method `Array.prototype.sort(compare)`: stable, `a` stays in front of `b` when
`compare(a, b) <= 0`. -/
def arraySort {α : Type} (compare : α → α → ℚ) (xs : List α) : List α :=
  xs.insertionSort (fun a b => compare a b ≤ 0)

/-- The comparator that `sortProducts` passes to `sort` for each `sortType`. -/
def sortComparator (H : Host) (sortType : String) (a b : Product) : ℚ :=
  if sortType = "price-low" then a.price - b.price
  else if sortType = "price-high" then b.price - a.price
  else if sortType = "name" then (H.localeCompare a.name b.name : ℚ)
  else ((a.id - b.id : Int) : ℚ)

/-- Method `ProductSearch.sortProducts(sortType)`. -/
def sortProducts (H : Host) (st : ProductSearch) (sortType : String) : ProductSearch :=
  { st with filteredProducts := arraySort (sortComparator H sortType) st.filteredProducts }

/-- Method `ProductSearch.applySorting()`. -/
def applySorting (H : Host) (st : ProductSearch) : ProductSearch :=
  let sortType := st.sortFilter
  sortProducts H st sortType

/-- The predicate of the two search filters: the term occurs in the lower-cased
name, description or category. -/
def matchesTerm (H : Host) (searchTerm : String) (product : Product) : Bool :=
  includes (H.toLowerCase product.name) searchTerm ||
  includes (H.toLowerCase product.description) searchTerm ||
  includes (H.toLowerCase product.category) searchTerm

/-- Method `ProductSearch.applyFilters()`. -/
def applyFilters (H : Host) (st : ProductSearch) : ProductSearch :=
  let category := st.categoryFilter
  let st1 :=
    if category ≠ "all" then
      { st with filteredProducts :=
          st.filteredProducts.filter (fun product => decide (product.category = category)) }
    else st
  applySorting H st1

/-- Method `ProductSearch.applySearchTerm()`. -/
def applySearchTerm (H : Host) (st : ProductSearch) : ProductSearch :=
  let searchTerm := trim (H.toLowerCase st.searchInput)
  let st1 :=
    if searchTerm ≠ "" then
      { st with filteredProducts := st.filteredProducts.filter (matchesTerm H searchTerm) }
    else st
  applySorting H st1

/-- Method `ProductSearch.searchProducts(searchTerm)`. -/
def searchProducts (H : Host) (st : ProductSearch) (searchTerm : String) : ProductSearch :=
  let searchTerm := trim (H.toLowerCase searchTerm)
  let st1 :=
    if searchTerm = "" then { st with filteredProducts := st.products }
    else { st with filteredProducts := st.products.filter (matchesTerm H searchTerm) }
  applyFilters H st1

/-- Method `ProductSearch.filterByCategory(category)`. -/
def filterByCategory (H : Host) (st : ProductSearch) (category : String) : ProductSearch :=
  let st1 :=
    if category = "all" then { st with filteredProducts := st.products }
    else { st with filteredProducts :=
             st.products.filter (fun product => decide (product.category = category)) }
  applySearchTerm H st1

/-- The state right after `loadProducts` has fetched the list `P`, with the
controls holding the given values. -/
def loadProducts (P : List Product) (searchInput categoryFilter sortFilter : String) :
    ProductSearch :=
  { products := P, filteredProducts := P, searchInput := searchInput,
    categoryFilter := categoryFilter, sortFilter := sortFilter }

/-- The three listeners installed by `ProductSearch.init`. Each fires after the
user has changed its control, with the control's new value. -/
inductive ViewEvent where
  | search (value : String)
  | category (value : String)
  | sort (value : String)
deriving DecidableEq

/-- One listener run: the control holds the new value, then the handler is called
with it. -/
def handleEvent (H : Host) (st : ProductSearch) : ViewEvent → ProductSearch
  | .search v => searchProducts H { st with searchInput := v } v
  | .category v => filterByCategory H { st with categoryFilter := v } v
  | .sort v => sortProducts H { st with sortFilter := v } v

/-- A sequence of listener runs, first to last. -/
def runEvents (H : Host) (st : ProductSearch) (es : List ViewEvent) : ProductSearch :=
  es.foldl (handleEvent H) st

/-! ## Shopping cart: `Cart` -/

/-- One entry of the array stored under the key `cart`. -/
structure CartLine where
  id : Int
  name : String
  price : ℚ
  category : String
  quantity : Int
deriving DecidableEq

/-- Assignment to a field of the object that `Array.prototype.find` returned: the
first element satisfying `p` is replaced by its image under `f`, in place. -/
def updateFirst {α : Type} (p : α → Bool) (f : α → α) : List α → List α
  | [] => []
  | x :: xs => if p x then f x :: xs else x :: updateFirst p f xs

/-- Method `Cart.addItem(product)`, from the stored cart to the cart it saves, the
quantity being an unbounded integer; `Float64.addItem` has the addition of doubles. -/
def addItem (cart : List CartLine) (product : Product) : List CartLine :=
  match cart.find? (fun item => decide (item.id = product.id)) with
  | some _ =>
    updateFirst (fun item => decide (item.id = product.id))
      (fun existingItem => { existingItem with quantity := existingItem.quantity + 1 }) cart
  | none =>
    cart ++ [{ id := product.id, name := product.name, price := product.price,
               category := product.category, quantity := 1 }]

/-- Method `Cart.removeItem(productId)`. -/
def removeItem (cart : List CartLine) (productId : Int) : List CartLine :=
  cart.filter (fun item => decide (item.id ≠ productId))

/-- Method `Cart.updateQuantity(productId, quantity)`. -/
def updateQuantity (cart : List CartLine) (productId : Int) (quantity : Int) : List CartLine :=
  match cart.find? (fun item => decide (item.id = productId)) with
  | some _ =>
    if quantity ≤ 0 then removeItem cart productId
    else updateFirst (fun item => decide (item.id = productId))
      (fun item => { item with quantity := quantity }) cart
  | none => cart

/-- Method `Cart.calculateTotal()` in exact arithmetic; `Float64.calculateTotal` has the
rounding of doubles. -/
def calculateTotal (cart : List CartLine) : ℚ :=
  cart.foldl (fun total item => total + item.price * (item.quantity : ℚ)) 0

/-- The three mutating operations of `Cart`. -/
inductive CartOp where
  | add (product : Product)
  | remove (productId : Int)
  | update (productId : Int) (quantity : Int)

/-- One operation applied to the stored cart. -/
def applyCartOp (cart : List CartLine) : CartOp → List CartLine
  | .add product => addItem cart product
  | .remove productId => removeItem cart productId
  | .update productId quantity => updateQuantity cart productId quantity

/-- The cart invariant of the data model: at most one line per product id, and every
quantity at least 1. -/
def CartInv (cart : List CartLine) : Prop :=
  (cart.map (fun item => item.id)).Nodup ∧ ∀ item ∈ cart, 1 ≤ item.quantity

/-! ## Reference pipeline and example data -/

/-- The search criterion on its own: the lower-cased, trimmed term is empty or
occurs in one of the three text fields. -/
def termFilter (H : Host) (s : String) (product : Product) : Bool :=
  decide (trim (H.toLowerCase s) = "") || matchesTerm H (trim (H.toLowerCase s)) product

/-- The category criterion on its own. -/
def categoryCriterion (c : String) (product : Product) : Bool :=
  decide (c = "all") || decide (product.category = c)

/-- The products that pass both criteria, in the order of the product list. -/
def selection (H : Host) (P : List Product) (s c : String) : List Product :=
  P.filter (fun product => termFilter H s product && categoryCriterion c product)

/-- The view computed from scratch: both filters on the product list, then the sort. -/
def viewOf (H : Host) (P : List Product) (s c m : String) : List Product :=
  arraySort (sortComparator H m)
    (P.filter (fun product => termFilter H s product && categoryCriterion c product))

/-- Two products have the same key under a sort mode: the same price for the two
price modes, the same name for `name`, the same id otherwise. -/
def sameSortKey (m : String) (a b : Product) : Prop :=
  if m = "price-low" ∨ m = "price-high" then a.price = b.price
  else if m = "name" then a.name = b.name
  else a.id = b.id

/-- The criteria in force: the values of the three controls. -/
def viewCriteria (st : ProductSearch) : String × String × String :=
  (st.searchInput, st.categoryFilter, st.sortFilter)

/-- The last listener run of the sequence is a search or a category change. -/
def endsWithFilter (es : List ViewEvent) : Bool :=
  match es.getLast? with
  | some (ViewEvent.search _) => true
  | some (ViewEvent.category _) => true
  | _ => false

/-- A third product, priced like Blitz. -/
def arena : Product :=
  { id := 3, name := "Arena", description := "Team battles", category := "Action",
    price := 1999 / 100, stock := 7, image := "arena.png" }

/-- First product of the scenario catalog. -/
def chrono : Product :=
  { id := 1, name := "Chrono", description := "Time travel quest", category := "RPG",
    price := 5999 / 100, stock := 5, image := "chrono.png" }

/-- Second product of the scenario catalog. -/
def blitz : Product :=
  { id := 2, name := "Blitz", description := "Fast arcade run", category := "Action",
    price := 1999 / 100, stock := 3, image := "blitz.png" }

/-- A cart line for Chrono, quantity 1. -/
def chronoLine : CartLine :=
  { id := 1, name := "Chrono", price := 5999 / 100, category := "RPG", quantity := 1 }

/-- A cart line for Blitz, quantity 3. -/
def blitzLine : CartLine :=
  { id := 2, name := "Blitz", price := 1999 / 100, category := "Action", quantity := 3 }

/-- Blitz as the catalog holds it after a price cut. -/
def blitzReduced : Product :=
  { blitz with price := 999 / 100 }

/-- The scenario catalog. -/
def catalog : List Product := [chrono, blitz]

/-- A host for closed examples: ASCII lower-casing and comparison by code points. -/
def asciiHost : Host where
  toLowerCase s := ⟨s.data.map Char.toLower⟩
  localeCompare := codePointCompare
  localeCompare_total a b := by
    unfold codePointCompare
    rcases lt_trichotomy a.data b.data with h | h | h
    · left; simp [h]
    · left; simp [h]
    · right; simp [h]
  localeCompare_trans a b c := by
    unfold codePointCompare
    intro h1 h2
    have hab : ¬ b.data < a.data := by
      intro h
      have : ¬ a.data < b.data := lt_asymm h
      simp [this, h] at h1
    have hbc : ¬ c.data < b.data := by
      intro h
      have : ¬ b.data < c.data := lt_asymm h
      simp [this, h] at h2
    have hac : ¬ c.data < a.data := by
      intro h
      rcases lt_trichotomy a.data b.data with h3 | h3 | h3
      · exact hbc (lt_trans h h3)
      · rw [h3] at h; exact hbc h
      · exact hab h3
    split_ifs <;> simp
  toLowerCase_blank s hs := by
    have hmap : s.data.map Char.toLower = s.data := by
      have hfix : ∀ c ∈ s.data, Char.toLower c = c := by
        intro c hc
        have hw := List.all_eq_true.1 hs c hc
        unfold isWhiteSpace at hw
        simp only [Bool.or_eq_true, Bool.and_eq_true, decide_eq_true_eq, List.mem_cons,
          List.mem_singleton, List.not_mem_nil, or_false] at hw
        have hn : ¬ (c.toNat ≥ 65 ∧ c.toNat ≤ 90) := by omega
        unfold Char.toLower
        simp only [hn, if_false]
      calc s.data.map Char.toLower = s.data.map id := List.map_congr_left hfix
        _ = s.data := List.map_id _
    show String.mk (s.data.map Char.toLower) = s
    rw [hmap]

/-! ## Regular expressions of `Auth` -/

/-- The fragment of regular expressions that `Auth` uses: one character of a
class, a class repeated at least `min` times (`+`, `*`, `{6,}`), concatenation and
the lookahead `(?=r)`. -/
inductive Regex where
  | cls (p : Char → Bool)
  | rep (p : Char → Bool) (min : Nat)
  | seq (r₁ r₂ : Regex)
  | look (r : Regex)

/-- All the ways a class repeated at least `min` times can match at the start of
`s`: the list of what is left of `s` after each match. -/
def repRun (p : Char → Bool) : Nat → List Char → List (List Char)
  | 0, [] => [[]]
  | 0, c :: t => (c :: t) :: (if p c then repRun p 0 t else [])
  | _ + 1, [] => []
  | n + 1, c :: t => if p c then repRun p n t else []

/-- All the ways `r` can match at the start of `s`: the list of what is left of `s`
after each match. A lookahead consumes nothing. -/
def Regex.run : Regex → List Char → List (List Char)
  | .cls _, [] => []
  | .cls p, c :: t => if p c then [t] else []
  | .rep p min, s => repRun p min s
  | .seq r₁ r₂, s => (r₁.run s).flatMap r₂.run
  | .look r, s => if (r.run s).isEmpty then [] else [s]

/-- The method `RegExp.prototype.test` for a pattern written between `^` and `$`: some
match of `r` at the start of `s` leaves nothing. -/
def Regex.test (r : Regex) (s : String) : Bool :=
  (r.run s.data).any List.isEmpty

/-- The class `[^\s@]`. The class `\s` is white space and line terminators, the set
that `trim` strips. -/
def notSpaceOrAt (c : Char) : Bool :=
  !isWhiteSpace c && !(c == '@')

/-- The class `.`: any character but a line terminator. -/
def anyChar (c : Char) : Bool :=
  !(decide (c.toNat ∈ [0x0A, 0x0D, 0x2028, 0x2029]))

/-- The class `[A-Za-z]`. -/
def isLetter (c : Char) : Bool :=
  (decide ('A'.toNat ≤ c.toNat) && decide (c.toNat ≤ 'Z'.toNat)) ||
  (decide ('a'.toNat ≤ c.toNat) && decide (c.toNat ≤ 'z'.toNat))

/-- The class `\d`. -/
def isDigit (c : Char) : Bool :=
  decide ('0'.toNat ≤ c.toNat) && decide (c.toNat ≤ '9'.toNat)

/-- The class `[A-Za-z\d@$!%*#?&]`. -/
def passwordChar (c : Char) : Bool :=
  isLetter c || isDigit c || decide (c ∈ ['@', '$', '!', '%', '*', '#', '?', '&'])

/-- The pattern `^[^\s@]+@[^\s@]+\.[^\s@]+$` of `validateEmail`. -/
def emailRegex : Regex :=
  .seq (.rep notSpaceOrAt 1) (.seq (.cls (fun c => c == '@'))
    (.seq (.rep notSpaceOrAt 1) (.seq (.cls (fun c => c == '.')) (.rep notSpaceOrAt 1))))

/-- The pattern `^(?=.*[A-Za-z])(?=.*\d)[A-Za-z\d@$!%*#?&]{6,}$` of
`validatePassword`. -/
def passwordRegex : Regex :=
  .seq (.look (.seq (.rep anyChar 0) (.cls isLetter)))
    (.seq (.look (.seq (.rep anyChar 0) (.cls isDigit))) (.rep passwordChar 6))

/-- The property `length` of a string: its number of UTF-16 code units. -/
def jsLength (s : String) : Nat :=
  (s.data.map (fun c => if c.toNat < 0x10000 then 1 else 2)).sum

/-! ## Accounts and session: `Auth` -/

/-- An entry of the array stored under the key `users`. -/
structure User where
  id : Int
  name : String
  email : String
  password : String
  createdAt : String
deriving DecidableEq

/-- The object stored under the key `currentUser`. -/
structure Session where
  userId : Int
  name : String
  email : String
  loginTime : String
deriving DecidableEq

/-- The part of local storage that `Auth` and `Cart` use: the keys `users`,
`currentUser` (absent when `none`) and `cart`. -/
structure Store where
  users : List User
  currentUser : Option Session
  cart : List CartLine
deriving DecidableEq

/-- The object that `register`, `login` and `logout` return. -/
structure AuthResult where
  success : Bool
  message : String
  user : Option Session
deriving DecidableEq

/-- Method `Auth.validateEmail(email)`. -/
def validateEmail (email : String) : Bool :=
  emailRegex.test email

/-- Method `Auth.validatePassword(password)`. -/
def validatePassword (password : String) : Bool :=
  passwordRegex.test password

/-- Method `Auth.validateName(name)`. -/
def validateName (name : String) : Bool :=
  decide (jsLength (trim name) ≥ 2)

/-- Method `Auth.userExists(email)`, on the stored users. -/
def userExists (H : Host) (users : List User) (email : String) : Bool :=
  users.any (fun user => decide (H.toLowerCase user.email = H.toLowerCase email))

/-- Method `Auth.register(name, email, password)`. The clock readings `Date.now()` and
`new Date().toISOString()` are the arguments `now` and `nowIso`. -/
def register (H : Host) (now : Int) (nowIso : String) (store : Store)
    (name email password : String) : AuthResult × Store :=
  if !validateName name then
    ({ success := false, message := "Name must be at least 2 characters long", user := none },
      store)
  else if !validateEmail email then
    ({ success := false, message := "Please enter a valid email address", user := none },
      store)
  else if !validatePassword password then
    ({ success := false,
       message := "Password must be at least 6 characters with letters and numbers",
       user := none }, store)
  else if userExists H store.users email then
    ({ success := false, message := "An account with this email already exists",
       user := none }, store)
  else
    let newUser : User :=
      { id := now, name := trim name, email := trim (H.toLowerCase email),
        password := password, createdAt := nowIso }
    ({ success := true, message := "Account created successfully!", user := none },
      { store with users := store.users ++ [newUser] })

/-- Method `Auth.login(email, password)`. The clock reading is the argument `nowIso`. -/
def login (H : Host) (nowIso : String) (store : Store) (email password : String) :
    AuthResult × Store :=
  if !validateEmail email then
    ({ success := false, message := "Please enter a valid email address", user := none },
      store)
  else if password = "" then
    ({ success := false, message := "Please enter your password", user := none }, store)
  else
    match store.users.find? (fun u =>
        decide (H.toLowerCase u.email = trim (H.toLowerCase email)) &&
        decide (u.password = password)) with
    | none =>
      ({ success := false, message := "Invalid email or password", user := none }, store)
    | some user =>
      let session : Session :=
        { userId := user.id, name := user.name, email := user.email, loginTime := nowIso }
      ({ success := true, message := "Login successful!", user := some session },
        { store with currentUser := some session })

/-- Method `Auth.logout()`. -/
def logout (store : Store) : AuthResult × Store :=
  ({ success := true, message := "Logged out successfully", user := none },
    { store with currentUser := none })

/-- Method `Auth.isLoggedIn()`. -/
def isLoggedIn (store : Store) : Bool :=
  store.currentUser.isSome

/-- The calls of `Auth`, with the clock readings they take. -/
inductive AuthOp where
  | register (now : Int) (nowIso name email password : String)
  | login (nowIso email password : String)
  | logout

/-- One call of `Auth` on the store. -/
def applyAuthOp (H : Host) (store : Store) : AuthOp → Store
  | .register now nowIso name email password =>
    (register H now nowIso store name email password).2
  | .login nowIso email password => (login H nowIso store email password).2
  | .logout => (logout store).2

/-- What the accounts code needs from the host's lower-casing: it is idempotent,
it leaves a string without white space at its ends without white space at its
ends, and it does not change whether a string has the shape of an email address
(white space, `@` and `.` have no case and no character lower-cases to them). -/
def LowerCaseLaws (H : Host) : Prop :=
  (∀ s, H.toLowerCase (H.toLowerCase s) = H.toLowerCase s) ∧
  (∀ s, trim s = s → trim (H.toLowerCase s) = H.toLowerCase s) ∧
  (∀ s, validateEmail (H.toLowerCase s) = validateEmail s)

/-- The total that `Cart.updateCartCount()` computes and shows: the sum of the
quantities. -/
def updateCartCount (cart : List CartLine) : Int :=
  cart.foldl (fun sum item => sum + item.quantity) 0

/-! ## Catalog view with array identity

The same methods of `ProductSearch`, with the two fields holding addresses of array
objects: a spread or a `filter` makes a new array, `sort` writes into the array it
is called on. -/

namespace Heap

/-- The `ProductSearch` object with its array objects: `arrays` lists the arrays by
address, the fields `products` and `filteredProducts` hold addresses. -/
structure ProductSearch where
  arrays : List (List Product)
  products : Nat
  filteredProducts : Nat
  searchInput : String
  categoryFilter : String
  sortFilter : String

/-- The content of the array at an address. -/
def read (st : ProductSearch) (address : Nat) : List Product :=
  st.arrays.getD address []

/-- Assignment of a newly made array to `this.filteredProducts`. -/
def assignView (st : ProductSearch) (xs : List Product) : ProductSearch :=
  { st with arrays := st.arrays ++ [xs], filteredProducts := st.arrays.length }

/-- Method `ProductSearch.sortProducts(sortType)`: the array that `filteredProducts`
points to is sorted in place. -/
def sortProducts (H : Host) (st : ProductSearch) (sortType : String) : ProductSearch :=
  { st with
    arrays := List.set st.arrays st.filteredProducts
      (arraySort (sortComparator H sortType) (read st st.filteredProducts)) }

/-- Method `ProductSearch.applySorting()`. -/
def applySorting (H : Host) (st : ProductSearch) : ProductSearch :=
  let sortType := st.sortFilter
  sortProducts H st sortType

/-- Method `ProductSearch.applyFilters()`. -/
def applyFilters (H : Host) (st : ProductSearch) : ProductSearch :=
  let category := st.categoryFilter
  let st1 :=
    if category ≠ "all" then
      assignView st ((read st st.filteredProducts).filter
        (fun product => decide (product.category = category)))
    else st
  applySorting H st1

/-- Method `ProductSearch.applySearchTerm()`. -/
def applySearchTerm (H : Host) (st : ProductSearch) : ProductSearch :=
  let searchTerm := trim (H.toLowerCase st.searchInput)
  let st1 :=
    if searchTerm ≠ "" then
      assignView st ((read st st.filteredProducts).filter (matchesTerm H searchTerm))
    else st
  applySorting H st1

/-- Method `ProductSearch.searchProducts(searchTerm)`. -/
def searchProducts (H : Host) (st : ProductSearch) (searchTerm : String) : ProductSearch :=
  let searchTerm := trim (H.toLowerCase searchTerm)
  let st1 :=
    if searchTerm = "" then assignView st (read st st.products)
    else assignView st ((read st st.products).filter (matchesTerm H searchTerm))
  applyFilters H st1

/-- Method `ProductSearch.filterByCategory(category)`. -/
def filterByCategory (H : Host) (st : ProductSearch) (category : String) : ProductSearch :=
  let st1 :=
    if category = "all" then assignView st (read st st.products)
    else assignView st ((read st st.products).filter
      (fun product => decide (product.category = category)))
  applySearchTerm H st1

/-- The object as the script creates it, `products: []` and `filteredProducts: []`
being two arrays, with the controls holding the given values. -/
def initial (searchInput categoryFilter sortFilter : String) : ProductSearch :=
  { arrays := [[], []], products := 0, filteredProducts := 1, searchInput := searchInput,
    categoryFilter := categoryFilter, sortFilter := sortFilter }

/-- Method `ProductSearch.loadProducts()` when the fetch succeeds with the list `P`:
the parsed array goes to `products`, a spread copy of it to `filteredProducts`. -/
def loadProducts (st : ProductSearch) (P : List Product) : ProductSearch :=
  let st1 := { st with arrays := st.arrays ++ [P], products := st.arrays.length }
  assignView st1 (read st1 st1.products)

/-- One listener run. -/
def handleEvent (H : Host) (st : ProductSearch) : ViewEvent → ProductSearch
  | .search v => searchProducts H { st with searchInput := v } v
  | .category v => filterByCategory H { st with categoryFilter := v } v
  | .sort v => sortProducts H { st with sortFilter := v } v

/-- A sequence of listener runs, first to last. -/
def runEvents (H : Host) (st : ProductSearch) (es : List ViewEvent) : ProductSearch :=
  es.foldl (handleEvent H) st

/-- The two fields point to two different arrays that exist. -/
def Separate (st : ProductSearch) : Prop :=
  st.products < st.arrays.length ∧ st.filteredProducts < st.arrays.length ∧
    st.products ≠ st.filteredProducts

/-- The state by value: the contents of the two arrays and the controls. -/
def contents (st : ProductSearch) : PhumGame.ProductSearch :=
  { products := read st st.products, filteredProducts := read st st.filteredProducts,
    searchInput := st.searchInput, categoryFilter := st.categoryFilter,
    sortFilter := st.sortFilter }

end Heap

/-- The product of the cart scenario: id 1, price 10. -/
def scenarioProduct : Product :=
  { id := 1, name := "Quest", description := "Dungeon crawl", category := "RPG",
    price := 10, stock := 4, image := "quest.png" }

/-! ## Cart arithmetic in double precision

The numbers of the script are IEEE 754 doubles. Here a finite double is the rational
it stands for, and `none` stands for the values that are not finite (the two
infinities and NaN): a sum or product with such an operand is not finite either.
The two zeros are one value. Stored prices and quantities are finite doubles, as
`JSON.parse` returns them. -/

namespace Float64

/-- Rounding of a rational to the nearest integer, a tie going to the even one. -/
def roundHalfEven (x : ℚ) : Int :=
  if x - ⌊x⌋ < 1 / 2 then ⌊x⌋
  else if 1 / 2 < x - ⌊x⌋ then ⌊x⌋ + 1
  else if ⌊x⌋ % 2 = 0 then ⌊x⌋ else ⌊x⌋ + 1

/-- Exponent of the spacing of the doubles around `x`: 52 below the binary exponent
of `x`, and that of the subnormal doubles for `x` under `2^-1022`. -/
def ulpExponent (x : ℚ) : Int :=
  max (Int.log 2 |x|) (-1022) - 52

/-- The number of 53 significant bits nearest to `x`, a tie going to the even
significand. -/
def nearest (x : ℚ) : ℚ :=
  (roundHalfEven (x / 2 ^ ulpExponent x) : ℚ) * 2 ^ ulpExponent x

/-- The double that an exact result `x` rounds to, `none` when it is beyond the
largest double, where the language gives an infinity. -/
def round (x : ℚ) : Option ℚ :=
  if |nearest x| < 2 ^ (1024 : ℕ) then some (nearest x) else none

/-- The operator `+` on numbers. -/
def add : Option ℚ → Option ℚ → Option ℚ
  | some x, some y => round (x + y)
  | _, _ => none

/-- The operator `*` on numbers. -/
def mul : Option ℚ → Option ℚ → Option ℚ
  | some x, some y => round (x * y)
  | _, _ => none

/-- The value of `quantity + 1` for a stored quantity, a double with an integer
value: the sum is rounded, and stays an integer and finite. -/
def addOne (quantity : Int) : Int :=
  ⌊nearest ((quantity : ℚ) + 1)⌋

/-- Method `Cart.addItem(product)`, from the stored cart to the cart it saves, with
`existingItem.quantity += 1` in double precision. -/
def addItem (cart : List CartLine) (product : Product) : List CartLine :=
  match cart.find? (fun item => decide (item.id = product.id)) with
  | some _ =>
    updateFirst (fun item => decide (item.id = product.id))
      (fun existingItem => { existingItem with quantity := addOne existingItem.quantity })
      cart
  | none =>
    cart ++ [{ id := product.id, name := product.name, price := product.price,
               category := product.category, quantity := 1 }]

/-- Method `Cart.calculateTotal()`: what it returns and the store it leaves. The
cart is read from the store, the reduction starts from 0 and adds the products
from the first line to the last, and nothing is saved. -/
def calculateTotal (store : Store) : Option ℚ × Store :=
  let cart := store.cart
  (cart.foldl
    (fun total item => add total (mul (some item.price) (some (item.quantity : ℚ))))
    (some 0), store)

end Float64

/-- A cart line of quantity `2^53` for the scenario product. -/
def maxedLine : CartLine :=
  { id := 1, name := "Quest", price := 10, category := "RPG", quantity := 9007199254740992 }

/-- A cart line of quantity 3 whose price is the double written `0.1`. -/
def tenthLine : CartLine :=
  { id := 4, name := "Token", price := 3602879701896397 / 36028797018963968,
    category := "Extra", quantity := 3 }

/-- A cart line of quantity 2 for the scenario product. -/
def scenarioLine : CartLine :=
  { id := 1, name := "Quest", price := 10, category := "RPG", quantity := 2 }

/-- A store with one account, no session and an empty cart. -/
def annStore : Store :=
  { users := [{ id := 1700, name := "Ann", email := "ann@x.org", password := "secret1",
                createdAt := "t1" }],
    currentUser := none, cart := [] }

/-! ## Lemmas on strings and on the view pipeline -/

theorem includes_iff (s t : String) : includes s t = true ↔ t.data <:+: s.data := by
  unfold includes
  rw [List.any_eq_true]
  constructor
  · rintro ⟨u, hu, hp⟩
    rw [List.mem_tails] at hu
    rw [List.isPrefixOf_iff_prefix] at hp
    exact List.infix_iff_prefix_suffix.2 ⟨u, hp, hu⟩
  · intro h
    obtain ⟨u, hp, hu⟩ := List.infix_iff_prefix_suffix.1 h
    exact ⟨u, (List.mem_tails _ _).2 hu, List.isPrefixOf_iff_prefix.2 hp⟩

theorem includes_empty (s : String) : includes s "" = true :=
  (includes_iff s "").2 List.nil_infix

theorem matchesTerm_iff (H : Host) (t : String) (p : Product) :
    matchesTerm H t p = true ↔
      (t.data <:+: (H.toLowerCase p.name).data ∨
       t.data <:+: (H.toLowerCase p.description).data ∨
       t.data <:+: (H.toLowerCase p.category).data) := by
  unfold matchesTerm
  simp only [Bool.or_eq_true, includes_iff, or_assoc]

theorem termFilter_iff (H : Host) (s : String) (p : Product) :
    termFilter H s p = true ↔
      (trim (H.toLowerCase s) = "" ∨ matchesTerm H (trim (H.toLowerCase s)) p = true) := by
  unfold termFilter
  simp only [Bool.or_eq_true, decide_eq_true_eq]

theorem categoryCriterion_iff (c : String) (p : Product) :
    categoryCriterion c p = true ↔ (c = "all" ∨ p.category = c) := by
  unfold categoryCriterion
  simp only [Bool.or_eq_true, decide_eq_true_eq]

theorem searchProducts_view (H : Host) (st : ProductSearch) (s : String) :
    (searchProducts H st s).filteredProducts =
      viewOf H st.products s st.categoryFilter st.sortFilter := by
  unfold searchProducts applyFilters applySorting sortProducts viewOf
  by_cases ht : trim (H.toLowerCase s) = "" <;> by_cases hc : st.categoryFilter = "all"
  · simp [ht, hc, termFilter, categoryCriterion]
  · simp [ht, hc, termFilter, categoryCriterion]
  · simp [ht, hc, termFilter, categoryCriterion]
  · simp [ht, hc, termFilter, categoryCriterion, List.filter_filter, Bool.and_comm]

theorem filterByCategory_view (H : Host) (st : ProductSearch) (c : String) :
    (filterByCategory H st c).filteredProducts =
      viewOf H st.products st.searchInput c st.sortFilter := by
  unfold filterByCategory applySearchTerm applySorting sortProducts viewOf
  by_cases ht : trim (H.toLowerCase st.searchInput) = "" <;> by_cases hc : c = "all"
  · simp [ht, hc, termFilter, categoryCriterion]
  · simp [ht, hc, termFilter, categoryCriterion]
  · simp [ht, hc, termFilter, categoryCriterion]
  · simp [ht, hc, termFilter, categoryCriterion, List.filter_filter]

theorem mem_arraySort {α : Type} (compare : α → α → ℚ) (xs : List α) (x : α) :
    x ∈ arraySort compare xs ↔ x ∈ xs := by
  unfold arraySort
  exact List.mem_insertionSort _

theorem arraySort_perm {α : Type} (compare : α → α → ℚ) (xs : List α) :
    (arraySort compare xs).Perm xs := by
  unfold arraySort
  exact List.perm_insertionSort _ xs

theorem mem_viewOf (H : Host) (P : List Product) (s c m : String) (p : Product) :
    p ∈ viewOf H P s c m ↔
      p ∈ P ∧ termFilter H s p = true ∧ categoryCriterion c p = true := by
  unfold viewOf
  rw [mem_arraySort, List.mem_filter, Bool.and_eq_true]

/-! ## Lemmas on sorting -/

theorem sortComparator_total (H : Host) (m : String) (a b : Product) :
    sortComparator H m a b ≤ 0 ∨ sortComparator H m b a ≤ 0 := by
  unfold sortComparator
  split_ifs
  · rcases le_total a.price b.price with h | h
    · exact Or.inl (sub_nonpos.2 h)
    · exact Or.inr (sub_nonpos.2 h)
  · rcases le_total a.price b.price with h | h
    · exact Or.inr (sub_nonpos.2 h)
    · exact Or.inl (sub_nonpos.2 h)
  · rcases H.localeCompare_total a.name b.name with h | h
    · exact Or.inl (by exact_mod_cast h)
    · exact Or.inr (by exact_mod_cast h)
  · rcases le_total a.id b.id with h | h
    · exact Or.inl (by exact_mod_cast sub_nonpos.2 h)
    · exact Or.inr (by exact_mod_cast sub_nonpos.2 h)

theorem sortComparator_trans (H : Host) (m : String) (a b c : Product)
    (hab : sortComparator H m a b ≤ 0) (hbc : sortComparator H m b c ≤ 0) :
    sortComparator H m a c ≤ 0 := by
  unfold sortComparator at *
  split_ifs at * with h1 h2 h3
  · exact sub_nonpos.2 (le_trans (sub_nonpos.1 hab) (sub_nonpos.1 hbc))
  · exact sub_nonpos.2 (le_trans (sub_nonpos.1 hbc) (sub_nonpos.1 hab))
  · have h1 : H.localeCompare a.name b.name ≤ 0 := by exact_mod_cast hab
    have h2 : H.localeCompare b.name c.name ≤ 0 := by exact_mod_cast hbc
    exact_mod_cast H.localeCompare_trans _ _ _ h1 h2
  · have h1 : a.id - b.id ≤ 0 := by exact_mod_cast hab
    have h2 : b.id - c.id ≤ 0 := by exact_mod_cast hbc
    have h3 : a.id - c.id ≤ 0 := by omega
    exact_mod_cast h3

theorem arraySort_sorted {α : Type} (compare : α → α → ℚ)
    (htotal : ∀ a b, compare a b ≤ 0 ∨ compare b a ≤ 0)
    (htrans : ∀ a b c, compare a b ≤ 0 → compare b c ≤ 0 → compare a c ≤ 0) (xs : List α) :
    (arraySort compare xs).Sorted (fun a b => compare a b ≤ 0) := by
  haveI : IsTotal α (fun a b => compare a b ≤ 0) := ⟨htotal⟩
  haveI : IsTrans α (fun a b => compare a b ≤ 0) := ⟨htrans⟩
  unfold arraySort
  exact List.sorted_insertionSort _ xs

theorem arraySort_pair {α : Type} (compare : α → α → ℚ) (xs : List α) (a b : α)
    (hab : compare a b ≤ 0) (h : List.Sublist [a, b] xs) :
    List.Sublist [a, b] (arraySort compare xs) := by
  unfold arraySort
  exact List.pair_sublist_insertionSort hab h

theorem arraySort_of_sorted {α : Type} (compare : α → α → ℚ) (xs : List α)
    (h : xs.Sorted (fun a b => compare a b ≤ 0)) : arraySort compare xs = xs := by
  unfold arraySort
  exact List.Sorted.insertionSort_eq h

theorem sortProducts_sorted (H : Host) (st : ProductSearch) (m : String) :
    (sortProducts H st m).filteredProducts.Sorted (fun a b => sortComparator H m a b ≤ 0) :=
  arraySort_sorted _ (sortComparator_total H m) (sortComparator_trans H m) _

theorem sortComparator_of_sameSortKey (H : Host) (m : String) (a b : Product)
    (h : sameSortKey m a b) : sortComparator H m a b ≤ 0 := by
  unfold sameSortKey at h
  unfold sortComparator
  by_cases h1 : m = "price-low"
  · simp [h1] at h ⊢
    exact le_of_eq h
  · by_cases h2 : m = "price-high"
    · simp [h2] at h ⊢
      exact le_of_eq h.symm
    · by_cases h3 : m = "name"
      · simp [h3] at h ⊢
        rw [h]
        rcases H.localeCompare_total b.name b.name with h6 | h6 <;> exact h6
      · simp [h1, h2, h3] at h ⊢
        exact le_of_eq h

/-! ## Claims on the catalog view -/

/-- C1, as stated, fails: the search term is trimmed before it is matched. On the
scenario catalog the term `" bli"` selects Blitz, and `" bli"` with its leading
blank occurs in none of Blitz's lower-cased name, description and category. -/
theorem searchProducts_padded_term_counterexample :
    blitz ∈ (searchProducts asciiHost (loadProducts catalog " bli" "all" "default")
        " bli").filteredProducts ∧
    ¬ ((asciiHost.toLowerCase " bli").data <:+: (asciiHost.toLowerCase blitz.name).data ∨
       (asciiHost.toLowerCase " bli").data <:+:
         (asciiHost.toLowerCase blitz.description).data ∨
       (asciiHost.toLowerCase " bli").data <:+:
         (asciiHost.toLowerCase blitz.category).data) := by
  constructor
  · have hv : (searchProducts asciiHost (loadProducts catalog " bli" "all" "default")
        " bli").filteredProducts = [blitz] := rfl
    rw [hv]
    exact List.mem_singleton.2 rfl
  · decide

/-- C1 (amended): after `searchProducts(s)`, with the category selector holding `c`
and under every sort mode, a product is in the view if and only if it is a product
of the list, the lower-cased and trimmed term is empty or occurs in its lower-cased
name, description or category, and `c` is `all` or its category equals `c`; every
element of the view contains the lower-cased, trimmed term in one of these fields. -/
theorem searchProducts_view_membership (H : Host) (st : ProductSearch) (s : String)
    (p : Product) :
    (p ∈ (searchProducts H st s).filteredProducts ↔
      p ∈ st.products ∧
      (trim (H.toLowerCase s) = "" ∨
        (trim (H.toLowerCase s)).data <:+: (H.toLowerCase p.name).data ∨
        (trim (H.toLowerCase s)).data <:+: (H.toLowerCase p.description).data ∨
        (trim (H.toLowerCase s)).data <:+: (H.toLowerCase p.category).data) ∧
      (st.categoryFilter = "all" ∨ p.category = st.categoryFilter)) ∧
    (p ∈ (searchProducts H st s).filteredProducts →
      ((trim (H.toLowerCase s)).data <:+: (H.toLowerCase p.name).data ∨
       (trim (H.toLowerCase s)).data <:+: (H.toLowerCase p.description).data ∨
       (trim (H.toLowerCase s)).data <:+: (H.toLowerCase p.category).data)) := by
  have hiff : p ∈ (searchProducts H st s).filteredProducts ↔
      p ∈ st.products ∧
      (trim (H.toLowerCase s) = "" ∨
        (trim (H.toLowerCase s)).data <:+: (H.toLowerCase p.name).data ∨
        (trim (H.toLowerCase s)).data <:+: (H.toLowerCase p.description).data ∨
        (trim (H.toLowerCase s)).data <:+: (H.toLowerCase p.category).data) ∧
      (st.categoryFilter = "all" ∨ p.category = st.categoryFilter) := by
    rw [searchProducts_view, mem_viewOf, termFilter_iff, categoryCriterion_iff,
      matchesTerm_iff]
  refine ⟨hiff, fun hp => ?_⟩
  rcases (hiff.1 hp).2.1 with h | h
  · left
    rw [h]
    exact List.nil_infix
  · exact h

/-- C1 (amended), at an instance: the padded term of the counterexample selects
Blitz because the trimmed term occurs in its lower-cased name. -/
theorem searchProducts_view_membership_witness :
    blitz ∈ (searchProducts asciiHost (loadProducts catalog " bli" "all" "default")
      " bli").filteredProducts :=
  ((searchProducts_view_membership asciiHost (loadProducts catalog " bli" "all" "default")
    " bli" blitz).1).2 ⟨by simp [loadProducts, catalog], Or.inr (Or.inl (by decide)),
      Or.inl rfl⟩

/-- C3: search and category filtering commute. From the same product list and under
the same sort mode, `filterByCategory(c)` with the search input holding `s` and
`searchProducts(s)` with the category selector holding `c` produce the same view,
whatever the earlier views and the other control values were. -/
theorem filterByCategory_searchProducts_commute (H : Host) (P V₁ V₂ : List Product)
    (s c m s' c' : String) :
    (filterByCategory H
        { products := P, filteredProducts := V₁, searchInput := s, categoryFilter := c',
          sortFilter := m } c).filteredProducts =
    (searchProducts H
        { products := P, filteredProducts := V₂, searchInput := s', categoryFilter := c,
          sortFilter := m } s).filteredProducts := by
  rw [filterByCategory_view, searchProducts_view]

/-- C4: `sortProducts(mode)` replaces the view `V` by a stable sort of `V`: the new
view is a permutation of `V`; it is in ascending price order for `price-low`, in
descending price order for `price-high`, in ascending `localeCompare` order of the
names for `name` and in ascending id order for every other mode; and two items
with equal sort keys (or on which the comparator returns 0) stay in the relative
order they had in `V`. Nothing but the view changes. -/
theorem sortProducts_stable_sort (H : Host) (st : ProductSearch) (mode : String) :
    (sortProducts H st mode).filteredProducts.Perm st.filteredProducts ∧
    (mode = "price-low" →
      (sortProducts H st mode).filteredProducts.Sorted (fun a b => a.price ≤ b.price)) ∧
    (mode = "price-high" →
      (sortProducts H st mode).filteredProducts.Sorted (fun a b => b.price ≤ a.price)) ∧
    (mode = "name" →
      (sortProducts H st mode).filteredProducts.Sorted
        (fun a b => H.localeCompare a.name b.name ≤ 0)) ∧
    (mode ≠ "price-low" → mode ≠ "price-high" → mode ≠ "name" →
      (sortProducts H st mode).filteredProducts.Sorted (fun a b => a.id ≤ b.id)) ∧
    (∀ a b, List.Sublist [a, b] st.filteredProducts →
      (sameSortKey mode a b ∨ sortComparator H mode a b = 0) →
      List.Sublist [a, b] (sortProducts H st mode).filteredProducts) ∧
    (sortProducts H st mode).products = st.products ∧
    (sortProducts H st mode).searchInput = st.searchInput ∧
    (sortProducts H st mode).categoryFilter = st.categoryFilter ∧
    (sortProducts H st mode).sortFilter = st.sortFilter := by
  have hs := sortProducts_sorted H st mode
  refine ⟨arraySort_perm _ _, ?_, ?_, ?_, ?_, ?_, rfl, rfl, rfl, rfl⟩
  · intro hm
    refine hs.imp ?_
    intro a b hab
    simpa [sortComparator, hm] using hab
  · intro hm
    refine hs.imp ?_
    intro a b hab
    simpa [sortComparator, hm] using hab
  · intro hm
    refine hs.imp ?_
    intro a b hab
    simpa [sortComparator, hm] using hab
  · intro h1 h2 h3
    refine hs.imp ?_
    intro a b hab
    have h4 : ((a.id - b.id : Int) : ℚ) ≤ 0 := by simpa [sortComparator, h1, h2, h3] using hab
    have h5 : a.id - b.id ≤ 0 := by exact_mod_cast h4
    omega
  · intro a b hsub hkey
    refine arraySort_pair _ _ a b ?_ hsub
    rcases hkey with hk | hk
    · exact sortComparator_of_sameSortKey H mode a b hk
    · exact le_of_eq hk

/-- C4, at an instance: Blitz and Arena have the same price, so sorting the view
made of Blitz then Arena by ascending price keeps Blitz in front of Arena. -/
theorem sortProducts_stable_sort_witness :
    List.Sublist [blitz, arena]
      (sortProducts asciiHost (loadProducts [blitz, arena] "" "all" "default")
        "price-low").filteredProducts :=
  (sortProducts_stable_sort asciiHost (loadProducts [blitz, arena] "" "all" "default")
    "price-low").2.2.2.2.2.1 blitz arena (List.Sublist.refl _)
    (Or.inl (by simp [sameSortKey, blitz, arena]))

theorem trim_toLowerCase_blank (H : Host) (s : String)
    (hs : s.data.all isWhiteSpace = true) : trim (H.toLowerCase s) = "" := by
  rw [H.toLowerCase_blank s hs]
  unfold trim
  have h : s.data.dropWhile isWhiteSpace = [] :=
    List.dropWhile_eq_nil_iff.2 (fun x hx => List.all_eq_true.1 hs x hx)
  rw [h, List.rdropWhile_nil]

theorem viewOf_blank_all (H : Host) (P : List Product) (s m : String)
    (hs : trim (H.toLowerCase s) = "") :
    viewOf H P s "all" m = arraySort (sortComparator H m) P := by
  unfold viewOf
  congr 1
  apply List.filter_eq_self.2
  intro p _
  simp [termFilter, categoryCriterion, hs]

theorem viewOf_blank (H : Host) (P : List Product) (s c m : String)
    (hs : trim (H.toLowerCase s) = "") (hc : c ≠ "all") :
    viewOf H P s c m =
      arraySort (sortComparator H m) (P.filter (fun p => decide (p.category = c))) := by
  unfold viewOf
  congr 1
  apply List.filter_congr
  intro p _
  simp [termFilter, categoryCriterion, hs, hc]

/-- C5: with an empty search input, `filterByCategory(c)` for `c` other than `all`
leaves in the view exactly the products whose category is equal to `c` (the view is
a permutation of that selection), and `filterByCategory('all')` leaves every
product. On the scenario catalog, `filterByCategory('RPG')` followed by
`sortProducts('price-low')` gives the view made of product 1 alone. -/
theorem filterByCategory_empty_search (H : Host) (P V : List Product) (c c' m : String) :
    (c ≠ "all" →
      (filterByCategory H
          { products := P, filteredProducts := V, searchInput := "", categoryFilter := c',
            sortFilter := m } c).filteredProducts.Perm
        (P.filter (fun p => decide (p.category = c))) ∧
      ∀ p, p ∈ (filterByCategory H
          { products := P, filteredProducts := V, searchInput := "", categoryFilter := c',
            sortFilter := m } c).filteredProducts ↔ p ∈ P ∧ p.category = c) ∧
    ((filterByCategory H
          { products := P, filteredProducts := V, searchInput := "", categoryFilter := c',
            sortFilter := m } "all").filteredProducts.Perm P) ∧
    (runEvents asciiHost (loadProducts catalog "" "all" "default")
        [ViewEvent.category "RPG", ViewEvent.sort "price-low"]).filteredProducts
      = [chrono] := by
  have hs : trim (H.toLowerCase "") = "" := trim_toLowerCase_blank H "" rfl
  refine ⟨fun hc => ?_, ?_, rfl⟩
  · have hv := viewOf_blank H P "" c m hs hc
    rw [filterByCategory_view]
    dsimp only
    rw [hv]
    refine ⟨arraySort_perm _ _, fun p => ?_⟩
    rw [mem_arraySort, List.mem_filter, decide_eq_true_eq]
  · rw [filterByCategory_view]
    dsimp only
    rw [viewOf_blank_all H P "" m hs]
    exact arraySort_perm _ _

/-- C6, as stated, fails: the default sort mode orders the view by id. On the list
made of Blitz (id 2) followed by Chrono (id 1), `searchProducts('')` with the
category selector on `all` and the sort selector on its default value gives Chrono
followed by Blitz, which is not the list itself. -/
theorem searchProducts_empty_term_counterexample :
    (searchProducts asciiHost (loadProducts [blitz, chrono] "" "all" "default")
        "").filteredProducts = [chrono, blitz] ∧
    (searchProducts asciiHost (loadProducts [blitz, chrono] "" "all" "default")
        "").filteredProducts ≠ [blitz, chrono] := by
  have hv : (searchProducts asciiHost (loadProducts [blitz, chrono] "" "all" "default")
        "").filteredProducts = [chrono, blitz] := by
    rw [searchProducts_view]
    norm_num [viewOf, loadProducts, termFilter, categoryCriterion, arraySort, sortComparator,
      List.insertionSort, List.orderedInsert, chrono, blitz]
    decide
  refine ⟨hv, ?_⟩
  rw [hv]
  simp [chrono, blitz]

/-- C6 (amended): `searchProducts` called with the empty term or a term made only
of white space, while the category selector is `all` and the sort mode is the
default one (any value other than `price-low`, `price-high` and `name`), yields the
products of `P` stably sorted by ascending id: a permutation of `P` in ascending id
order, equal to `P` itself when `P` is already in ascending id order. -/
theorem searchProducts_blank_term (H : Host) (st : ProductSearch) (s : String)
    (hs : s.data.all isWhiteSpace = true) (hc : st.categoryFilter = "all")
    (h1 : st.sortFilter ≠ "price-low") (h2 : st.sortFilter ≠ "price-high")
    (h3 : st.sortFilter ≠ "name") :
    (searchProducts H st s).filteredProducts =
      arraySort (fun a b => ((a.id - b.id : Int) : ℚ)) st.products ∧
    (searchProducts H st s).filteredProducts.Perm st.products ∧
    (searchProducts H st s).filteredProducts.Sorted (fun a b => a.id ≤ b.id) ∧
    (st.products.Sorted (fun a b => a.id ≤ b.id) →
      (searchProducts H st s).filteredProducts = st.products) := by
  have hcmp : sortComparator H st.sortFilter = fun a b => ((a.id - b.id : Int) : ℚ) := by
    funext a b
    simp [sortComparator, h1, h2, h3]
  have hv : (searchProducts H st s).filteredProducts =
      arraySort (fun a b => ((a.id - b.id : Int) : ℚ)) st.products := by
    rw [searchProducts_view, hc, viewOf_blank_all H _ s _ (trim_toLowerCase_blank H s hs), hcmp]
  have hle : ∀ a b : Product, ((a.id - b.id : Int) : ℚ) ≤ 0 ↔ a.id ≤ b.id := by
    intro a b
    constructor
    · intro h
      have h5 : a.id - b.id ≤ 0 := by exact_mod_cast h
      omega
    · intro h
      have h5 : a.id - b.id ≤ 0 := by omega
      exact_mod_cast h5
  refine ⟨hv, ?_, ?_, ?_⟩
  · rw [hv]
    exact arraySort_perm _ _
  · have hsorted := arraySort_sorted (fun a b : Product => ((a.id - b.id : Int) : ℚ))
      (fun a b => by simpa [hcmp] using sortComparator_total H st.sortFilter a b)
      (fun a b c => by simpa [hcmp] using sortComparator_trans H st.sortFilter a b c)
      st.products
    rw [hv]
    exact hsorted.imp (fun {a b} h => (hle a b).1 h)
  · intro hP
    rw [hv]
    apply arraySort_of_sorted
    exact hP.imp (fun {a b} h => (hle a b).2 h)

/-- C6 (amended), at an instance: a term of two blanks on the scenario catalog. -/
theorem searchProducts_blank_term_witness :
    ("  ".data.all isWhiteSpace = true) ∧
    (searchProducts asciiHost (loadProducts catalog "" "all" "default") "  ").filteredProducts
      = catalog := by
  have h := searchProducts_blank_term asciiHost (loadProducts catalog "" "all" "default")
    "  " (by decide) rfl (by decide) (by decide) (by decide)
  refine ⟨by decide, h.2.2.2 ?_⟩
  simp [loadProducts, catalog, chrono, blitz, List.Sorted]

/-! ## Sequences of listener runs -/

theorem searchProducts_eq (H : Host) (st : ProductSearch) (s : String) :
    searchProducts H st s =
      { st with filteredProducts := viewOf H st.products s st.categoryFilter st.sortFilter } := by
  have h := searchProducts_view H st s
  unfold searchProducts applyFilters applySorting sortProducts at h ⊢
  by_cases ht : trim (H.toLowerCase s) = "" <;> by_cases hc : st.categoryFilter = "all" <;>
    simp only [ht, hc, if_true, if_false, ne_eq, not_true_eq_false, not_false_eq_true] at h ⊢ <;>
    rw [h]

theorem filterByCategory_eq (H : Host) (st : ProductSearch) (c : String) :
    filterByCategory H st c =
      { st with filteredProducts := viewOf H st.products st.searchInput c st.sortFilter } := by
  have h := filterByCategory_view H st c
  unfold filterByCategory applySearchTerm applySorting sortProducts at h ⊢
  by_cases ht : trim (H.toLowerCase st.searchInput) = "" <;> by_cases hc : c = "all" <;>
    simp only [ht, hc, if_true, if_false, ne_eq, not_true_eq_false, not_false_eq_true] at h ⊢ <;>
    rw [h]

theorem handleEvent_products (H : Host) (st : ProductSearch) (e : ViewEvent) :
    (handleEvent H st e).products = st.products := by
  cases e with
  | search v => simp only [handleEvent, searchProducts_eq]
  | category v => simp only [handleEvent, filterByCategory_eq]
  | sort v => rfl

theorem runEvents_products (H : Host) (es : List ViewEvent) :
    ∀ st : ProductSearch, (runEvents H st es).products = st.products := by
  induction es with
  | nil => intro st; rfl
  | cons e es ih =>
    intro st
    show (runEvents H (handleEvent H st e) es).products = st.products
    rw [ih, handleEvent_products]

theorem runEvents_concat (H : Host) (st : ProductSearch) (es : List ViewEvent)
    (e : ViewEvent) : runEvents H st (es ++ [e]) = handleEvent H (runEvents H st es) e := by
  unfold runEvents
  rw [List.foldl_append]
  rfl

theorem handleEvent_filter_view (H : Host) (st : ProductSearch) (e : ViewEvent)
    (he : endsWithFilter [e] = true) :
    (handleEvent H st e).filteredProducts =
      viewOf H st.products (handleEvent H st e).searchInput
        (handleEvent H st e).categoryFilter (handleEvent H st e).sortFilter := by
  cases e with
  | search v => simp only [handleEvent, searchProducts_eq]
  | category v => simp only [handleEvent, filterByCategory_eq]
  | sort v => simp [endsWithFilter] at he

theorem endsWithFilter_concat (es : List ViewEvent) (e : ViewEvent) :
    endsWithFilter (es ++ [e]) = endsWithFilter [e] := by
  unfold endsWithFilter
  simp

theorem runEvents_filter_view (H : Host) (st : ProductSearch) (es : List ViewEvent)
    (he : endsWithFilter es = true) :
    (runEvents H st es).filteredProducts =
      viewOf H st.products (runEvents H st es).searchInput
        (runEvents H st es).categoryFilter (runEvents H st es).sortFilter := by
  rcases List.eq_nil_or_concat es with h | ⟨es', e, h⟩
  · subst h
    simp [endsWithFilter] at he
  · subst h
    rw [List.concat_eq_append] at he ⊢
    rw [endsWithFilter_concat] at he
    rw [runEvents_concat, handleEvent_filter_view H _ e he, runEvents_products]

theorem viewOf_eq_arraySort_selection (H : Host) (P : List Product) (s c m : String) :
    viewOf H P s c m = arraySort (sortComparator H m) (selection H P s c) := rfl

theorem viewOf_sorted (H : Host) (P : List Product) (s c m : String) :
    (viewOf H P s c m).Sorted (fun a b => sortComparator H m a b ≤ 0) :=
  arraySort_sorted _ (sortComparator_total H m) (sortComparator_trans H m) _

theorem handleEvent_perm (H : Host) (st : ProductSearch) (e : ViewEvent)
    (h : st.filteredProducts.Perm (selection H st.products st.searchInput st.categoryFilter)) :
    (handleEvent H st e).filteredProducts.Perm
      (selection H st.products (handleEvent H st e).searchInput
        (handleEvent H st e).categoryFilter) := by
  cases e with
  | search v =>
    simp only [handleEvent, searchProducts_eq, viewOf_eq_arraySort_selection]
    exact arraySort_perm _ _
  | category v =>
    simp only [handleEvent, filterByCategory_eq, viewOf_eq_arraySort_selection]
    exact arraySort_perm _ _
  | sort v =>
    exact (arraySort_perm _ _).trans h

theorem runEvents_perm (H : Host) (es : List ViewEvent) :
    ∀ st : ProductSearch,
      st.filteredProducts.Perm (selection H st.products st.searchInput st.categoryFilter) →
      (runEvents H st es).filteredProducts.Perm
        (selection H st.products (runEvents H st es).searchInput
          (runEvents H st es).categoryFilter) := by
  induction es with
  | nil => intro st h; exact h
  | cons e es ih =>
    intro st h
    have h1 := ih (handleEvent H st e) (by
      rw [handleEvent_products]
      exact handleEvent_perm H st e h)
    rw [handleEvent_products] at h1
    exact h1

theorem loadProducts_perm (H : Host) (P : List Product) (s c m : String)
    (hs : trim (H.toLowerCase s) = "") (hc : c = "all") :
    (loadProducts P s c m).filteredProducts.Perm
      (selection H (loadProducts P s c m).products (loadProducts P s c m).searchInput
        (loadProducts P s c m).categoryFilter) := by
  have h : selection H P s c = P := by
    unfold selection
    apply List.filter_eq_self.2
    intro p _
    simp [termFilter, categoryCriterion, hs, hc]
  show P.Perm (selection H P s c)
  rw [h]

theorem handleEvent_sorted (H : Host) (st : ProductSearch) (e : ViewEvent) :
    (handleEvent H st e).filteredProducts.Sorted
      (fun a b => sortComparator H (handleEvent H st e).sortFilter a b ≤ 0) := by
  cases e with
  | search v =>
    simp only [handleEvent, searchProducts_eq]
    exact viewOf_sorted H _ _ _ _
  | category v =>
    simp only [handleEvent, filterByCategory_eq]
    exact viewOf_sorted H _ _ _ _
  | sort v => exact sortProducts_sorted H _ v

theorem runEvents_sorted (H : Host) (st : ProductSearch) (es : List ViewEvent)
    (hne : es ≠ []) :
    (runEvents H st es).filteredProducts.Sorted
      (fun a b => sortComparator H (runEvents H st es).sortFilter a b ≤ 0) := by
  rcases List.eq_nil_or_concat es with h | ⟨es', e, h⟩
  · exact absurd h hne
  · subst h
    rw [List.concat_eq_append, runEvents_concat]
    exact handleEvent_sorted H _ e

theorem eq_of_perm_of_sorted_on {α : Type} (r : α → α → Prop) :
    ∀ l₁ l₂ : List α, l₁.Perm l₂ → l₁.Sorted r → l₂.Sorted r →
      (∀ a ∈ l₁, ∀ b ∈ l₁, r a b → r b a → a = b) → l₁ = l₂ := by
  intro l₁
  induction l₁ with
  | nil =>
    intro l₂ hp _ _ _
    exact hp.nil_eq
  | cons a t₁ ih =>
    intro l₂ hp hs₁ hs₂ hanti
    cases l₂ with
    | nil => exact absurd hp.eq_nil (List.cons_ne_nil _ _)
    | cons b t₂ =>
      have hab : a = b := by
        by_contra hne
        have ha2 : a ∈ b :: t₂ := hp.subset (List.mem_cons_self _ _)
        have hb1 : b ∈ a :: t₁ := hp.symm.subset (List.mem_cons_self _ _)
        have ha2' : a ∈ t₂ := (List.mem_cons.1 ha2).resolve_left hne
        have hb1' : b ∈ t₁ := (List.mem_cons.1 hb1).resolve_left (fun h => hne h.symm)
        have hba : r b a := List.rel_of_sorted_cons hs₂ a ha2'
        have hab : r a b := List.rel_of_sorted_cons hs₁ b hb1'
        exact hne (hanti a (List.mem_cons_self _ _) b hb1 hab hba)
      subst hab
      have ht : t₁ = t₂ := ih t₂ hp.cons_inv hs₁.of_cons hs₂.of_cons
        (fun x hx y hy => hanti x (List.mem_cons_of_mem _ hx) y (List.mem_cons_of_mem _ hy))
      rw [ht]

/-- C2, as stated, fails: `sortProducts` sorts the current view in place, so
products with equal keys keep the order left by the earlier sort. On the list made
of Blitz and Arena (same price), sorting by name and then by ascending price gives
Arena before Blitz, sorting by ascending price alone gives Blitz before Arena, and
both sequences end with the same search term, category and sort mode. -/
theorem runEvents_order_counterexample :
    viewCriteria (runEvents asciiHost (loadProducts [blitz, arena] "" "all" "default")
        [ViewEvent.sort "name", ViewEvent.sort "price-low"]) =
      viewCriteria (runEvents asciiHost (loadProducts [blitz, arena] "" "all" "default")
        [ViewEvent.sort "price-low"]) ∧
    (runEvents asciiHost (loadProducts [blitz, arena] "" "all" "default")
        [ViewEvent.sort "name", ViewEvent.sort "price-low"]).filteredProducts
      = [arena, blitz] ∧
    (runEvents asciiHost (loadProducts [blitz, arena] "" "all" "default")
        [ViewEvent.sort "price-low"]).filteredProducts = [blitz, arena] ∧
    (runEvents asciiHost (loadProducts [blitz, arena] "" "all" "default")
        [ViewEvent.sort "name", ViewEvent.sort "price-low"]).filteredProducts ≠
      (runEvents asciiHost (loadProducts [blitz, arena] "" "all" "default")
        [ViewEvent.sort "price-low"]).filteredProducts := by
  have hname : asciiHost.localeCompare "Blitz" "Arena" = 1 := by decide
  have h1 : (runEvents asciiHost (loadProducts [blitz, arena] "" "all" "default")
      [ViewEvent.sort "name", ViewEvent.sort "price-low"]).filteredProducts
      = [arena, blitz] := by
    norm_num [runEvents, handleEvent, sortProducts, loadProducts, arraySort, sortComparator,
      List.insertionSort, List.orderedInsert, arena, blitz, hname]
  have h2 : (runEvents asciiHost (loadProducts [blitz, arena] "" "all" "default")
      [ViewEvent.sort "price-low"]).filteredProducts = [blitz, arena] := by
    norm_num [runEvents, handleEvent, sortProducts, loadProducts, arraySort, sortComparator,
      List.insertionSort, List.orderedInsert, arena, blitz]
  refine ⟨rfl, h1, h2, ?_⟩
  rw [h1, h2]
  simp [arena, blitz]

/-- C2 (amended): start from the loaded catalog `P` and take two sequences of
`searchProducts`, `filterByCategory` and `sortProducts` calls (each run by its
listener, after its control took the new value) that end with the same search term,
category and sort mode. If both sequences end with a `searchProducts` or
`filterByCategory` call, the two views are identical. If the catalog was loaded
with a blank search input and the category `all`, the two views are permutations of
each other, and they are identical whenever both sequences are non-empty and no two
distinct products of `P` tie under the final sort mode. -/
theorem runEvents_same_criteria (H : Host) (P : List Product) (s₀ c₀ m₀ : String)
    (es₁ es₂ : List ViewEvent)
    (hcrit : viewCriteria (runEvents H (loadProducts P s₀ c₀ m₀) es₁) =
      viewCriteria (runEvents H (loadProducts P s₀ c₀ m₀) es₂)) :
    (endsWithFilter es₁ = true → endsWithFilter es₂ = true →
      (runEvents H (loadProducts P s₀ c₀ m₀) es₁).filteredProducts =
        (runEvents H (loadProducts P s₀ c₀ m₀) es₂).filteredProducts) ∧
    (trim (H.toLowerCase s₀) = "" → c₀ = "all" →
      (runEvents H (loadProducts P s₀ c₀ m₀) es₁).filteredProducts.Perm
        (runEvents H (loadProducts P s₀ c₀ m₀) es₂).filteredProducts ∧
      (es₁ ≠ [] → es₂ ≠ [] →
        (∀ a ∈ P, ∀ b ∈ P,
          sortComparator H (runEvents H (loadProducts P s₀ c₀ m₀) es₁).sortFilter a b ≤ 0 →
          sortComparator H (runEvents H (loadProducts P s₀ c₀ m₀) es₁).sortFilter b a ≤ 0 →
          a = b) →
        (runEvents H (loadProducts P s₀ c₀ m₀) es₁).filteredProducts =
          (runEvents H (loadProducts P s₀ c₀ m₀) es₂).filteredProducts)) := by
  have hs : (runEvents H (loadProducts P s₀ c₀ m₀) es₁).searchInput =
      (runEvents H (loadProducts P s₀ c₀ m₀) es₂).searchInput :=
    congrArg (fun t => t.1) hcrit
  have hc : (runEvents H (loadProducts P s₀ c₀ m₀) es₁).categoryFilter =
      (runEvents H (loadProducts P s₀ c₀ m₀) es₂).categoryFilter :=
    congrArg (fun t => t.2.1) hcrit
  have hm : (runEvents H (loadProducts P s₀ c₀ m₀) es₁).sortFilter =
      (runEvents H (loadProducts P s₀ c₀ m₀) es₂).sortFilter :=
    congrArg (fun t => t.2.2) hcrit
  constructor
  · intro h1 h2
    rw [runEvents_filter_view H _ es₁ h1, runEvents_filter_view H _ es₂ h2, hs, hc, hm]
  · intro hs₀ hc₀
    have hp₁ := runEvents_perm H es₁ _ (loadProducts_perm H P s₀ c₀ m₀ hs₀ hc₀)
    have hp₂ := runEvents_perm H es₂ _ (loadProducts_perm H P s₀ c₀ m₀ hs₀ hc₀)
    rw [hs, hc] at hp₁
    have hperm := hp₁.trans hp₂.symm
    refine ⟨hperm, fun hne₁ hne₂ hanti => ?_⟩
    have hsorted₁ := runEvents_sorted H (loadProducts P s₀ c₀ m₀) es₁ hne₁
    have hsorted₂ := runEvents_sorted H (loadProducts P s₀ c₀ m₀) es₂ hne₂
    rw [← hm] at hsorted₂
    refine eq_of_perm_of_sorted_on _ _ _ hperm hsorted₁ hsorted₂ ?_
    intro a ha b hb hab hba
    have hsub : ∀ x, x ∈ (runEvents H (loadProducts P s₀ c₀ m₀) es₁).filteredProducts →
        x ∈ P := by
      intro x hx
      have hx' := hp₁.subset hx
      unfold selection at hx'
      exact (List.mem_filter.1 hx').1
    exact hanti a (hsub a ha) b (hsub b hb) hab hba

/-- C2 (amended), at an instance: on the scenario catalog, a category change
followed by a search and a search alone end with the same criteria and give the
same view. -/
theorem runEvents_same_criteria_witness :
    viewCriteria (runEvents asciiHost (loadProducts catalog "" "all" "default")
        [ViewEvent.category "RPG", ViewEvent.category "all", ViewEvent.search "bli"]) =
      viewCriteria (runEvents asciiHost (loadProducts catalog "" "all" "default")
        [ViewEvent.search "bli"]) ∧
    (runEvents asciiHost (loadProducts catalog "" "all" "default")
        [ViewEvent.category "RPG", ViewEvent.category "all",
          ViewEvent.search "bli"]).filteredProducts =
      (runEvents asciiHost (loadProducts catalog "" "all" "default")
        [ViewEvent.search "bli"]).filteredProducts :=
  ⟨rfl, (runEvents_same_criteria asciiHost catalog "" "all" "default"
      [ViewEvent.category "RPG", ViewEvent.category "all", ViewEvent.search "bli"]
      [ViewEvent.search "bli"] rfl).1 rfl rfl⟩

/-! ## Lemmas on the cart -/

theorem updateFirst_split {α : Type} (p : α → Bool) (f : α → α) (pre post : List α) (l : α)
    (hpre : ∀ x ∈ pre, p x = false) (hl : p l = true) :
    updateFirst p f (pre ++ l :: post) = pre ++ f l :: post := by
  induction pre with
  | nil => simp [updateFirst, hl]
  | cons x xs ih =>
    have hx : p x = false := hpre x (List.mem_cons_self _ _)
    have hxs : ∀ y ∈ xs, p y = false := fun y hy => hpre y (List.mem_cons_of_mem _ hy)
    simp [updateFirst, hx, ih hxs]

theorem updateFirst_map {α β : Type} (p : α → Bool) (f : α → α) (g : α → β)
    (hg : ∀ x, g (f x) = g x) (xs : List α) :
    (updateFirst p f xs).map g = xs.map g := by
  induction xs with
  | nil => rfl
  | cons x xs ih =>
    unfold updateFirst
    split_ifs
    · simp [hg]
    · simp [ih]

theorem mem_updateFirst {α : Type} (p : α → Bool) (f : α → α) (xs : List α) (y : α)
    (hy : y ∈ updateFirst p f xs) : y ∈ xs ∨ ∃ x ∈ xs, y = f x := by
  induction xs with
  | nil => simp [updateFirst] at hy
  | cons x xs ih =>
    unfold updateFirst at hy
    split_ifs at hy
    · rcases List.mem_cons.1 hy with h | h
      · exact Or.inr ⟨x, List.mem_cons_self _ _, h⟩
      · exact Or.inl (List.mem_cons_of_mem _ h)
    · rcases List.mem_cons.1 hy with h | h
      · exact Or.inl (h ▸ List.mem_cons_self _ _)
      · rcases ih h with h' | ⟨z, hz, hzy⟩
        · exact Or.inl (List.mem_cons_of_mem _ h')
        · exact Or.inr ⟨z, List.mem_cons_of_mem _ hz, hzy⟩

theorem find_none_of_no_line (cart : List CartLine) (productId : Int)
    (h : ∀ x ∈ cart, x.id ≠ productId) :
    cart.find? (fun item => decide (item.id = productId)) = none := by
  apply List.find?_eq_none.2
  intro x hx
  simpa using h x hx

theorem find_some_of_line (cart : List CartLine) (productId : Int) (l : CartLine)
    (hl : l ∈ cart) (hid : l.id = productId) :
    ∃ item, cart.find? (fun item => decide (item.id = productId)) = some item := by
  cases hfind : cart.find? (fun item => decide (item.id = productId)) with
  | some item => exact ⟨item, rfl⟩
  | none =>
    have h := List.find?_eq_none.1 hfind l hl
    simp [hid] at h

theorem first_line_split (cart : List CartLine) (productId : Int) :
    (∃ pre l post, cart = pre ++ l :: post ∧ (∀ x ∈ pre, x.id ≠ productId) ∧
      l.id = productId) ∨ (∀ x ∈ cart, x.id ≠ productId) := by
  induction cart with
  | nil => right; intro x hx; simp at hx
  | cons y ys ih =>
    by_cases hy : y.id = productId
    · left
      exact ⟨[], y, ys, rfl, by simp, hy⟩
    · rcases ih with ⟨pre, l, post, hsplit, hpre, hl⟩ | hnone
      · left
        refine ⟨y :: pre, l, post, by rw [hsplit]; rfl, ?_, hl⟩
        intro x hx
        rcases List.mem_cons.1 hx with h | h
        · rw [h]; exact hy
        · exact hpre x h
      · right
        intro x hx
        rcases List.mem_cons.1 hx with h | h
        · rw [h]; exact hy
        · exact hnone x h

theorem calculateTotal_eq_sum (cart : List CartLine) :
    calculateTotal cart = (cart.map (fun item => item.price * (item.quantity : ℚ))).sum := by
  have h : ∀ (xs : List CartLine) (acc : ℚ),
      xs.foldl (fun total item => total + item.price * (item.quantity : ℚ)) acc =
        acc + (xs.map (fun item => item.price * (item.quantity : ℚ))).sum := by
    intro xs
    induction xs with
    | nil => intro acc; simp
    | cons x xs ih =>
      intro acc
      rw [List.foldl_cons, ih, List.map_cons, List.sum_cons, add_assoc]
  unfold calculateTotal
  rw [h, zero_add]

theorem addItem_of_line (cart : List CartLine) (p : Product) (l : CartLine)
    (hl : l ∈ cart) (hid : l.id = p.id) :
    addItem cart p = updateFirst (fun item => decide (item.id = p.id))
      (fun existingItem => { existingItem with quantity := existingItem.quantity + 1 })
      cart := by
  obtain ⟨item, hfind⟩ := find_some_of_line cart p.id l hl hid
  unfold addItem
  rw [hfind]

theorem addItem_of_no_line (cart : List CartLine) (p : Product)
    (h : ∀ x ∈ cart, x.id ≠ p.id) :
    addItem cart p =
      cart ++ [{ id := p.id, name := p.name, price := p.price, category := p.category,
                 quantity := 1 }] := by
  unfold addItem
  rw [find_none_of_no_line cart p.id h]

theorem updateQuantity_of_line (cart : List CartLine) (productId quantity : Int)
    (l : CartLine) (hl : l ∈ cart) (hid : l.id = productId) :
    updateQuantity cart productId quantity =
      if quantity ≤ 0 then removeItem cart productId
      else updateFirst (fun item => decide (item.id = productId))
        (fun item => { item with quantity := quantity }) cart := by
  obtain ⟨item, hfind⟩ := find_some_of_line cart productId l hl hid
  unfold updateQuantity
  rw [hfind]

theorem updateQuantity_of_no_line (cart : List CartLine) (productId quantity : Int)
    (h : ∀ x ∈ cart, x.id ≠ productId) : updateQuantity cart productId quantity = cart := by
  unfold updateQuantity
  rw [find_none_of_no_line cart productId h]

theorem cartInv_updateFirst (cart : List CartLine) (pred : CartLine → Bool)
    (f : CartLine → CartLine) (hid : ∀ x, (f x).id = x.id)
    (hq : ∀ x ∈ cart, 1 ≤ (f x).quantity) (h : CartInv cart) :
    CartInv (updateFirst pred f cart) := by
  refine ⟨?_, ?_⟩
  · rw [updateFirst_map pred f (fun item => item.id) hid]
    exact h.1
  · intro y hy
    rcases mem_updateFirst pred f cart y hy with h1 | ⟨x, hx, hxy⟩
    · exact h.2 y h1
    · rw [hxy]
      exact hq x hx

theorem cartInv_removeItem (cart : List CartLine) (productId : Int) (h : CartInv cart) :
    CartInv (removeItem cart productId) := by
  unfold removeItem
  refine ⟨?_, ?_⟩
  · exact h.1.sublist ((List.filter_sublist cart).map _)
  · intro y hy
    exact h.2 y (List.mem_filter.1 hy).1

theorem cartInv_addItem (cart : List CartLine) (p : Product) (h : CartInv cart) :
    CartInv (addItem cart p) := by
  rcases first_line_split cart p.id with ⟨pre, l, post, hsplit, _, hl⟩ | hnone
  · have hmem : l ∈ cart := by rw [hsplit]; simp
    rw [addItem_of_line cart p l hmem hl]
    refine cartInv_updateFirst cart _ _ ?_ ?_ h
    · intro x
      rfl
    · intro x hx
      have := h.2 x hx
      show 1 ≤ x.quantity + 1
      omega
  · rw [addItem_of_no_line cart p hnone]
    refine ⟨?_, ?_⟩
    · rw [List.map_append, List.map_singleton]
      apply List.Nodup.append h.1 (List.nodup_singleton _)
      intro a ha hb
      rw [List.mem_singleton] at hb
      obtain ⟨x, hx, hxa⟩ := List.mem_map.1 ha
      exact hnone x hx (hxa.trans hb)
    · intro y hy
      rcases List.mem_append.1 hy with h1 | h1
      · exact h.2 y h1
      · rw [List.mem_singleton] at h1
        rw [h1]

theorem cartInv_updateQuantity (cart : List CartLine) (productId quantity : Int)
    (h : CartInv cart) : CartInv (updateQuantity cart productId quantity) := by
  rcases first_line_split cart productId with ⟨pre, l, post, hsplit, _, hl⟩ | hnone
  · have hmem : l ∈ cart := by rw [hsplit]; simp
    rw [updateQuantity_of_line cart productId quantity l hmem hl]
    split_ifs with hq
    · exact cartInv_removeItem cart productId h
    · refine cartInv_updateFirst cart _ _ ?_ ?_ h
      · intro x
        rfl
      · intro x _
        show 1 ≤ quantity
        omega
  · rw [updateQuantity_of_no_line cart productId quantity hnone]
    exact h

theorem cartInv_applyCartOp (cart : List CartLine) (op : CartOp) (h : CartInv cart) :
    CartInv (applyCartOp cart op) := by
  cases op with
  | add product => exact cartInv_addItem cart product h
  | remove productId => exact cartInv_removeItem cart productId h
  | update productId quantity => exact cartInv_updateQuantity cart productId quantity h

theorem cartInv_foldl (ops : List CartOp) :
    ∀ cart, CartInv cart → CartInv (ops.foldl applyCartOp cart) := by
  induction ops with
  | nil => intro cart h; exact h
  | cons op ops ih =>
    intro cart h
    exact ih _ (cartInv_applyCartOp cart op h)

/-! ## Claims on the cart -/

/-- C8: `Cart.updateQuantity(productId, quantity)` for an integer quantity. If no
line has that id the stored cart is unchanged. If a line has that id and the
quantity is at most 0, the result is the result of `removeItem(productId)`: no line
of that id is left, and `calculateTotal()` afterwards returns what it returns on
the lines of the other ids alone. If a line has that id and the quantity is
positive, the first such line gets exactly that quantity and everything else is
unchanged. -/
theorem updateQuantity_spec (cart : List CartLine) (productId quantity : Int) :
    ((∀ x ∈ cart, x.id ≠ productId) → updateQuantity cart productId quantity = cart) ∧
    ((∃ l ∈ cart, l.id = productId) → quantity ≤ 0 →
      updateQuantity cart productId quantity = removeItem cart productId ∧
      (∀ x ∈ updateQuantity cart productId quantity, x.id ≠ productId) ∧
      (∀ store : Store,
        (Float64.calculateTotal
            { store with cart := updateQuantity cart productId quantity }).1 =
          (Float64.calculateTotal
            { store with cart := cart.filter (fun item => decide (item.id ≠ productId)) }).1)) ∧
    (∀ pre l post, cart = pre ++ l :: post → (∀ x ∈ pre, x.id ≠ productId) →
      l.id = productId → 0 < quantity →
      updateQuantity cart productId quantity =
        pre ++ { id := l.id, name := l.name, price := l.price, category := l.category,
                 quantity := quantity } :: post) := by
  refine ⟨updateQuantity_of_no_line cart productId quantity, ?_, ?_⟩
  · rintro ⟨l, hmem, hl⟩ hq
    have h := updateQuantity_of_line cart productId quantity l hmem hl
    rw [if_pos hq] at h
    refine ⟨h, ?_, ?_⟩
    · intro x hx
      rw [h] at hx
      unfold removeItem at hx
      simpa using (List.mem_filter.1 hx).2
    · intro store
      rw [h]
      rfl
  · intro pre l post hsplit hpre hl hq
    have hmem : l ∈ cart := by rw [hsplit]; simp
    rw [updateQuantity_of_line cart productId quantity l hmem hl, if_neg (by omega), hsplit]
    apply updateFirst_split
    · intro x hx
      simpa using hpre x hx
    · simpa using hl

/-- C8, at an instance: setting the Blitz quantity to 0 leaves Chrono alone in the
cart, and setting it to 5 stores exactly 5. -/
theorem updateQuantity_spec_witness :
    updateQuantity [chronoLine, blitzLine] 2 0 = removeItem [chronoLine, blitzLine] 2 ∧
    updateQuantity [chronoLine, blitzLine] 2 5 =
      [chronoLine,
       { id := 2, name := "Blitz", price := 1999 / 100, category := "Action",
         quantity := 5 }] :=
  ⟨((updateQuantity_spec [chronoLine, blitzLine] 2 0).2.1
      ⟨blitzLine, by simp, rfl⟩ (le_refl 0)).1,
   (updateQuantity_spec [chronoLine, blitzLine] 2 5).2.2 [chronoLine] blitzLine [] rfl
      (by simp [chronoLine]) rfl (by decide)⟩

/-- C9: the cart invariant (at most one line per product id, every quantity an
integer at least 1) is kept by `addItem`, `removeItem` and `updateQuantity`, for
every product, id and integer quantity. Hence it holds in every cart reached from
the empty cart by these operations, where no line has a quantity of 0 or less. -/
theorem cartInv_preserved :
    (∀ cart, CartInv cart →
      (∀ p, CartInv (addItem cart p)) ∧
      (∀ productId, CartInv (removeItem cart productId)) ∧
      (∀ productId quantity, CartInv (updateQuantity cart productId quantity))) ∧
    (∀ ops : List CartOp,
      CartInv (ops.foldl applyCartOp []) ∧
      ∀ item ∈ ops.foldl applyCartOp [], ¬ item.quantity ≤ 0) := by
  have hempty : CartInv [] := ⟨List.nodup_nil, fun item hitem => by simp at hitem⟩
  refine ⟨fun cart h => ⟨fun p => cartInv_addItem cart p h,
    fun productId => cartInv_removeItem cart productId h,
    fun productId quantity => cartInv_updateQuantity cart productId quantity h⟩, ?_⟩
  intro ops
  have h := cartInv_foldl ops [] hempty
  refine ⟨h, fun item hitem hq => ?_⟩
  have := h.2 item hitem
  omega

/-- C11: `Cart.removeItem(productId)` leaves no line of that id; every other line is
kept as it was, the same number of times and in the same order (the result is a
sublist of the cart); if no line has that id the cart is unchanged. -/
theorem removeItem_spec (cart : List CartLine) (productId : Int) :
    (∀ x ∈ removeItem cart productId, x.id ≠ productId) ∧
    List.Sublist (removeItem cart productId) cart ∧
    (∀ x : CartLine, x.id ≠ productId →
      (removeItem cart productId).count x = cart.count x) ∧
    ((∀ x ∈ cart, x.id ≠ productId) → removeItem cart productId = cart) := by
  unfold removeItem
  refine ⟨?_, List.filter_sublist cart, ?_, ?_⟩
  · intro x hx
    simpa using (List.mem_filter.1 hx).2
  · intro x hx
    exact List.count_filter (by simpa using hx)
  · intro h
    apply List.filter_eq_self.2
    intro x hx
    simpa using h x hx

/-- C11, at an instance: removing id 2 from the cart of Chrono and Blitz leaves no
line of id 2, and removing it from the cart of Chrono alone changes nothing. -/
theorem removeItem_spec_witness :
    (∀ x ∈ removeItem [chronoLine, blitzLine] 2, x.id ≠ 2) ∧
    removeItem [chronoLine] 2 = [chronoLine] :=
  ⟨(removeItem_spec [chronoLine, blitzLine] 2).1,
   (removeItem_spec [chronoLine] 2).2.2.2 (by simp [chronoLine])⟩

theorem updateCartCount_eq_sum (cart : List CartLine) :
    updateCartCount cart = (cart.map (fun item => item.quantity)).sum := by
  have h : ∀ (xs : List CartLine) (acc : Int),
      xs.foldl (fun sum item => sum + item.quantity) acc =
        acc + (xs.map (fun item => item.quantity)).sum := by
    intro xs
    induction xs with
    | nil => intro acc; simp
    | cons x xs ih =>
      intro acc
      rw [List.foldl_cons, ih, List.map_cons, List.sum_cons, add_assoc]
  unfold updateCartCount
  rw [h, zero_add]

theorem addItem_addItem_nil (p : Product) :
    addItem (addItem [] p) p =
      [{ id := p.id, name := p.name, price := p.price, category := p.category,
         quantity := 2 }] := by
  simp [addItem, updateFirst]

/-- C12: for every product `p`, `Cart.addItem(p)` called twice in a row on the
empty cart gives a cart of exactly one line, with the id of `p` and quantity 2; the
item count of `updateCartCount` is then 2 and `calculateTotal()` is twice the
price of `p`. For the product of id 1 and price 10 the count is 2 and the total
20. -/
theorem addItem_twice (p : Product) :
    addItem (addItem [] p) p =
      [{ id := p.id, name := p.name, price := p.price, category := p.category,
         quantity := 2 }] ∧
    updateCartCount (addItem (addItem [] p) p) = 2 ∧
    calculateTotal (addItem (addItem [] p) p) = 2 * p.price ∧
    updateCartCount (addItem (addItem [] scenarioProduct) scenarioProduct) = 2 ∧
    calculateTotal (addItem (addItem [] scenarioProduct) scenarioProduct) = 20 := by
  refine ⟨addItem_addItem_nil p, ?_, ?_, ?_, ?_⟩
  · rw [addItem_addItem_nil, updateCartCount_eq_sum]
    simp
  · rw [addItem_addItem_nil, calculateTotal_eq_sum]
    simp
    ring
  · rw [addItem_addItem_nil, updateCartCount_eq_sum]
    simp
  · rw [addItem_addItem_nil, calculateTotal_eq_sum]
    simp [scenarioProduct]
    norm_num

/-! ## View invariant -/

theorem viewOf_subperm (H : Host) (P : List Product) (s c m : String) :
    (viewOf H P s c m).Subperm P :=
  (arraySort_perm _ _).subperm.trans (List.filter_sublist P).subperm

theorem handleEvent_subperm (H : Host) (st : ProductSearch) (e : ViewEvent)
    (h : st.filteredProducts.Subperm st.products) :
    (handleEvent H st e).filteredProducts.Subperm st.products := by
  cases e with
  | search v =>
    simp only [handleEvent, searchProducts_eq]
    exact viewOf_subperm H _ _ _ _
  | category v =>
    simp only [handleEvent, filterByCategory_eq]
    exact viewOf_subperm H _ _ _ _
  | sort v =>
    exact (arraySort_perm _ _).subperm.trans h

theorem runEvents_subperm (H : Host) (es : List ViewEvent) :
    ∀ st : ProductSearch, st.filteredProducts.Subperm st.products →
      (runEvents H st es).filteredProducts.Subperm st.products := by
  induction es with
  | nil => intro st h; exact h
  | cons e es ih =>
    intro st h
    have h1 := ih (handleEvent H st e) (by
      rw [handleEvent_products]
      exact handleEvent_subperm H st e h)
    rw [handleEvent_products] at h1
    exact h1

/-- C18: in every state reached from the loaded catalog `P` by a sequence of
`searchProducts`, `filterByCategory` and `sortProducts` calls, whatever the controls
hold, every element of the view is an element of `P` and no product occurs in the
view more often than in `P`; the product list is still `P`. -/
theorem view_invariant (H : Host) (P : List Product) (s c m : String)
    (es : List ViewEvent) :
    (∀ p ∈ (runEvents H (loadProducts P s c m) es).filteredProducts, p ∈ P) ∧
    (∀ p : Product,
      (runEvents H (loadProducts P s c m) es).filteredProducts.count p ≤ P.count p) ∧
    (runEvents H (loadProducts P s c m) es).products = P := by
  have h : (runEvents H (loadProducts P s c m) es).filteredProducts.Subperm P :=
    runEvents_subperm H es (loadProducts P s c m) (List.Subperm.refl P)
  exact ⟨fun p hp => h.subset hp, fun p => h.count_le p, runEvents_products H es _⟩

/-! ## Lemmas on regular expressions -/

theorem mem_repRun (p : Char → Bool) (t : List Char) :
    ∀ (s : List Char) (n : Nat),
      t ∈ repRun p n s ↔ ∃ pre, s = pre ++ t ∧ pre.all p = true ∧ n ≤ pre.length := by
  intro s
  induction s with
  | nil =>
    intro n
    cases n with
    | zero =>
      simp only [repRun, List.mem_singleton]
      constructor
      · intro h
        exact ⟨[], by simp [h], rfl, le_refl 0⟩
      · rintro ⟨pre, h, _, _⟩
        have := List.append_eq_nil.1 h.symm
        exact this.2
    | succ n =>
      simp only [repRun, List.not_mem_nil, false_iff]
      rintro ⟨pre, h, _, hlen⟩
      have := (List.append_eq_nil.1 h.symm).1
      rw [this] at hlen
      simp at hlen
  | cons c u ih =>
    intro n
    cases n with
    | zero =>
      simp only [repRun, List.mem_cons]
      constructor
      · rintro (h | h)
        · exact ⟨[], by simp [h], rfl, le_refl 0⟩
        · by_cases hc : p c = true
          · rw [if_pos hc] at h
            obtain ⟨pre, hs, hall, _⟩ := (ih 0).1 h
            exact ⟨c :: pre, by simp [hs], by simp [hc, hall], Nat.zero_le _⟩
          · rw [if_neg hc] at h
            simp at h
      · rintro ⟨pre, hs, hall, _⟩
        cases pre with
        | nil => left; simpa using hs.symm
        | cons d pre =>
          right
          simp only [List.cons_append, List.cons.injEq] at hs
          simp only [List.all_cons, Bool.and_eq_true] at hall
          rw [← hs.1] at hall
          rw [if_pos hall.1]
          exact (ih 0).2 ⟨pre, hs.2, hall.2, Nat.zero_le _⟩
    | succ n =>
      simp only [repRun]
      constructor
      · intro h
        by_cases hc : p c = true
        · rw [if_pos hc] at h
          obtain ⟨pre, hs, hall, hlen⟩ := (ih n).1 h
          exact ⟨c :: pre, by simp [hs], by simp [hc, hall], by simpa using hlen⟩
        · rw [if_neg hc] at h
          simp at h
      · rintro ⟨pre, hs, hall, hlen⟩
        cases pre with
        | nil => simp at hlen
        | cons d pre =>
          simp only [List.cons_append, List.cons.injEq] at hs
          simp only [List.all_cons, Bool.and_eq_true] at hall
          rw [← hs.1] at hall
          rw [if_pos hall.1]
          exact (ih n).2 ⟨pre, hs.2, hall.2, by simpa using hlen⟩

theorem mem_run_cls (p : Char → Bool) (s t : List Char) :
    t ∈ (Regex.cls p).run s ↔ ∃ c, s = c :: t ∧ p c = true := by
  cases s with
  | nil => simp [Regex.run]
  | cons c u =>
    simp only [Regex.run]
    by_cases hc : p c = true
    · rw [if_pos hc]
      simp only [List.mem_singleton, List.cons.injEq]
      constructor
      · intro h
        exact ⟨c, ⟨rfl, h.symm⟩, hc⟩
      · rintro ⟨d, ⟨hd, ht⟩, _⟩
        exact ht.symm
    · rw [if_neg hc]
      simp only [List.not_mem_nil, List.cons.injEq, false_iff]
      rintro ⟨d, ⟨hd, _⟩, hp⟩
      rw [← hd] at hp
      exact hc hp

theorem mem_run_seq (r₁ r₂ : Regex) (s t : List Char) :
    t ∈ (Regex.seq r₁ r₂).run s ↔ ∃ u ∈ r₁.run s, t ∈ r₂.run u := by
  simp only [Regex.run, List.mem_flatMap]

theorem run_seq_look (r₁ r₂ : Regex) (s : List Char) :
    (Regex.seq (Regex.look r₁) r₂).run s = if (r₁.run s).isEmpty then [] else r₂.run s := by
  simp only [Regex.run]
  split_ifs <;> simp

theorem test_iff (r : Regex) (s : String) : r.test s = true ↔ [] ∈ r.run s.data := by
  unfold Regex.test
  rw [List.any_eq_true]
  constructor
  · rintro ⟨t, ht, he⟩
    rw [List.isEmpty_iff] at he
    rw [he] at ht
    exact ht
  · intro h
    exact ⟨[], h, rfl⟩

theorem run_find_ne_nil (q : Char → Bool) (s : List Char) :
    ((Regex.seq (Regex.rep anyChar 0) (Regex.cls q)).run s).isEmpty = false ↔
      ∃ pre c post, s = pre ++ c :: post ∧ pre.all anyChar = true ∧ q c = true := by
  constructor
  · intro h
    cases hrun : (Regex.seq (Regex.rep anyChar 0) (Regex.cls q)).run s with
    | nil => rw [hrun] at h; simp at h
    | cons t ts =>
      have ht : t ∈ (Regex.seq (Regex.rep anyChar 0) (Regex.cls q)).run s := by
        rw [hrun]; exact List.mem_cons_self _ _
      obtain ⟨u, hu, htu⟩ := (mem_run_seq _ _ _ _).1 ht
      obtain ⟨pre, hs, hall, _⟩ := (mem_repRun anyChar u s 0).1 hu
      obtain ⟨c, hc, hq⟩ := (mem_run_cls q u t).1 htu
      exact ⟨pre, c, t, by rw [hs, hc], hall, hq⟩
  · rintro ⟨pre, c, post, hs, hall, hq⟩
    have hmem : post ∈ (Regex.seq (Regex.rep anyChar 0) (Regex.cls q)).run s :=
      (mem_run_seq _ _ _ _).2 ⟨c :: post,
        (mem_repRun anyChar (c :: post) s 0).2 ⟨pre, hs, hall, Nat.zero_le _⟩,
        (mem_run_cls q (c :: post) post).2 ⟨c, rfl, hq⟩⟩
    cases hrun : (Regex.seq (Regex.rep anyChar 0) (Regex.cls q)).run s with
    | nil => rw [hrun] at hmem; simp at hmem
    | cons t ts => rfl

theorem anyChar_of_passwordChar (c : Char) (h : passwordChar c = true) : anyChar c = true := by
  unfold passwordChar isLetter isDigit at h
  unfold anyChar
  simp only [Bool.or_eq_true, Bool.and_eq_true, decide_eq_true_eq, List.mem_cons,
    List.mem_singleton, List.not_mem_nil, or_false] at h
  simp only [Bool.not_eq_true', decide_eq_false_iff_not, List.mem_cons, List.mem_singleton,
    List.not_mem_nil, or_false]
  have hA : 'A'.toNat = 65 := rfl
  have hZ : 'Z'.toNat = 90 := rfl
  have ha : 'a'.toNat = 97 := rfl
  have hz : 'z'.toNat = 122 := rfl
  have h0 : '0'.toNat = 48 := rfl
  have h9 : '9'.toNat = 57 := rfl
  rw [hA, hZ, ha, hz, h0, h9] at h
  rcases h with (h | h) | h
  · omega
  · omega
  · rcases h with h | h | h | h | h | h | h | h <;> subst h <;> decide

theorem any_of_split (q : Char → Bool) (s pre post : List Char) (c : Char)
    (hs : s = pre ++ c :: post) (hq : q c = true) : s.any q = true := by
  rw [List.any_eq_true]
  exact ⟨c, by rw [hs]; simp, hq⟩

theorem split_of_any (q : Char → Bool) (s : List Char) (hall : s.all passwordChar = true)
    (hq : s.any q = true) :
    ∃ pre c post, s = pre ++ c :: post ∧ pre.all anyChar = true ∧ q c = true := by
  obtain ⟨c, hc, hqc⟩ := List.any_eq_true.1 hq
  obtain ⟨pre, post, hs⟩ := List.append_of_mem hc
  refine ⟨pre, c, post, hs, ?_, hqc⟩
  rw [List.all_eq_true]
  intro x hx
  apply anyChar_of_passwordChar
  exact List.all_eq_true.1 hall x (by rw [hs]; exact List.mem_append_left _ hx)

theorem validatePassword_iff (p : String) :
    validatePassword p = true ↔
      6 ≤ p.data.length ∧ p.data.all passwordChar = true ∧ p.data.any isLetter = true ∧
        p.data.any isDigit = true := by
  unfold validatePassword
  rw [test_iff]
  unfold passwordRegex
  rw [run_seq_look, run_seq_look]
  have hL := run_find_ne_nil isLetter p.data
  have hD := run_find_ne_nil isDigit p.data
  constructor
  · intro h
    cases h1 : ((Regex.seq (Regex.rep anyChar 0) (Regex.cls isLetter)).run p.data).isEmpty with
    | true => rw [h1] at h; simp at h
    | false =>
      cases h2 : ((Regex.seq (Regex.rep anyChar 0) (Regex.cls isDigit)).run p.data).isEmpty with
      | true => rw [h1, h2] at h; simp at h
      | false =>
        rw [h1, h2] at h
        simp only [Bool.false_eq_true, if_false] at h
        have h3 : [] ∈ repRun passwordChar 6 p.data := h
        obtain ⟨pre, hs, hall, hlen⟩ := (mem_repRun passwordChar [] p.data 6).1 h3
        rw [List.append_nil] at hs
        rw [← hs] at hall hlen
        obtain ⟨a, c, b, hsl, _, hq⟩ := hL.1 h1
        obtain ⟨a', c', b', hsd, _, hq'⟩ := hD.1 h2
        exact ⟨hlen, hall, any_of_split isLetter _ a b c hsl hq,
          any_of_split isDigit _ a' b' c' hsd hq'⟩
  · rintro ⟨hlen, hall, hl, hd⟩
    rw [hL.2 (split_of_any isLetter p.data hall hl), hD.2 (split_of_any isDigit p.data hall hd)]
    simp only [Bool.false_eq_true, if_false]
    show [] ∈ repRun passwordChar 6 p.data
    exact (mem_repRun passwordChar [] p.data 6).2 ⟨p.data, by simp, hall, hlen⟩

/-! ## Claim on passwords -/

/-- C15: the code departs from the rule that its own comment (`At least 6 characters,
one letter and one number`) and the message of `register` state, which is the
claim. The string `pass-word1` has ten characters, letters and a digit, and
`validatePassword` returns false on it: the pattern also asks every character to be
a letter, a digit or one of `@$!%*#?&`, and the hyphen is none of these. -/
theorem validatePassword_counterexample :
    validatePassword "pass-word1" = false ∧
    6 ≤ "pass-word1".data.length ∧ "pass-word1".data.any isLetter = true ∧
    "pass-word1".data.any isDigit = true := by
  decide

/-- What the pattern of `validatePassword` accepts: `p` has at least 6 characters,
every character of `p` is a letter `A-Z` or `a-z`, a digit `0-9` or one of
`@$!%*#?&`, and `p` contains at least one letter and at least one digit. -/
theorem validatePassword_pattern (p : String) :
    validatePassword p = true ↔
      6 ≤ p.data.length ∧
      (∀ c ∈ p.data, isLetter c = true ∨ isDigit c = true ∨
        c ∈ ['@', '$', '!', '%', '*', '#', '?', '&']) ∧
      (∃ c ∈ p.data, isLetter c = true) ∧ (∃ c ∈ p.data, isDigit c = true) := by
  rw [validatePassword_iff, List.all_eq_true, List.any_eq_true, List.any_eq_true]
  unfold passwordChar
  simp only [Bool.or_eq_true, decide_eq_true_eq, or_assoc]

/-- The pattern at two instances: `abc12!` is accepted, `abcdef` is not. -/
theorem validatePassword_pattern_instances :
    validatePassword "abc12!" = true ∧ validatePassword "abcdef" = false :=
  ⟨(validatePassword_pattern "abc12!").2 (by decide),
   by
    cases h : validatePassword "abcdef" with
    | false => rfl
    | true => exact absurd ((validatePassword_pattern "abcdef").1 h).2.2.2 (by decide)⟩

/-! ## Lemmas on email addresses and on `Auth` -/

theorem isWhiteSpace_of_notSpaceOrAt (c : Char) (h : notSpaceOrAt c = true) :
    isWhiteSpace c = false := by
  unfold notSpaceOrAt at h
  simp only [Bool.and_eq_true, Bool.not_eq_true'] at h
  exact h.1

theorem validateEmail_split (e : String) (h : validateEmail e = true) :
    ∃ A B C, e.data = A ++ '@' :: (B ++ '.' :: C) ∧
      A.all notSpaceOrAt = true ∧ B.all notSpaceOrAt = true ∧ C.all notSpaceOrAt = true ∧
      1 ≤ A.length ∧ 1 ≤ B.length ∧ 1 ≤ C.length := by
  unfold validateEmail at h
  rw [test_iff] at h
  unfold emailRegex at h
  obtain ⟨u₁, h₁, h⟩ := (mem_run_seq _ _ _ _).1 h
  obtain ⟨u₂, h₂, h⟩ := (mem_run_seq _ _ _ _).1 h
  obtain ⟨u₃, h₃, h⟩ := (mem_run_seq _ _ _ _).1 h
  obtain ⟨u₄, h₄, h₅⟩ := (mem_run_seq _ _ _ _).1 h
  obtain ⟨A, hA, hAall, hAlen⟩ := (mem_repRun notSpaceOrAt u₁ e.data 1).1 h₁
  obtain ⟨c, hc, hcq⟩ := (mem_run_cls _ u₁ u₂).1 h₂
  obtain ⟨B, hB, hBall, hBlen⟩ := (mem_repRun notSpaceOrAt u₃ u₂ 1).1 h₃
  obtain ⟨d, hd, hdq⟩ := (mem_run_cls _ u₃ u₄).1 h₄
  obtain ⟨C, hC, hCall, hClen⟩ := (mem_repRun notSpaceOrAt [] u₄ 1).1 h₅
  have hc' : c = '@' := by simpa using hcq
  have hd' : d = '.' := by simpa using hdq
  rw [List.append_nil] at hC
  refine ⟨A, B, C, ?_, hAall, hBall, hCall, hAlen, hBlen, hClen⟩
  rw [hA, hc, hB, hd, hC, hc', hd']

theorem validateEmail_no_space (e : String) (h : validateEmail e = true) :
    ∀ c ∈ e.data, isWhiteSpace c = false := by
  obtain ⟨A, B, C, hs, hA, hB, hC, _, _, _⟩ := validateEmail_split e h
  intro c hc
  rw [hs] at hc
  simp only [List.mem_append, List.mem_cons] at hc
  rcases hc with hc | hc | hc | hc | hc
  · exact isWhiteSpace_of_notSpaceOrAt c (List.all_eq_true.1 hA c hc)
  · rw [hc]; decide
  · exact isWhiteSpace_of_notSpaceOrAt c (List.all_eq_true.1 hB c hc)
  · rw [hc]; decide
  · exact isWhiteSpace_of_notSpaceOrAt c (List.all_eq_true.1 hC c hc)

theorem trim_eq_self (s : String) (h : ∀ c ∈ s.data, isWhiteSpace c = false) :
    trim s = s := by
  unfold trim
  have h1 : s.data.dropWhile isWhiteSpace = s.data := by
    rw [List.dropWhile_eq_self_iff]
    intro hl
    rw [h _ (List.get_mem _ _ _)]
    simp
  have h2 : s.data.rdropWhile isWhiteSpace = s.data := by
    rw [List.rdropWhile_eq_self_iff]
    intro hl
    rw [h _ (List.getLast_mem hl)]
    simp
  rw [h1, h2]

theorem trim_of_validateEmail (e : String) (h : validateEmail e = true) : trim e = e :=
  trim_eq_self e (validateEmail_no_space e h)

theorem trim_toLowerCase_email (H : Host) (hH : LowerCaseLaws H) (e : String)
    (h : validateEmail e = true) : trim (H.toLowerCase e) = H.toLowerCase e :=
  hH.2.1 e (trim_of_validateEmail e h)

theorem ne_empty_of_validatePassword (p : String) (h : validatePassword p = true) :
    p ≠ "" := by
  intro hp
  have := ((validatePassword_iff p).1 h).1
  rw [hp] at this
  simp at this

theorem first_split {α : Type} (p : α → Bool) (l : List α) :
    (∃ pre x post, l = pre ++ x :: post ∧ (∀ y ∈ pre, p y = false) ∧ p x = true) ∨
      (∀ y ∈ l, p y = false) := by
  induction l with
  | nil => right; intro y hy; simp at hy
  | cons a l ih =>
    by_cases ha : p a = true
    · left
      exact ⟨[], a, l, rfl, by simp, ha⟩
    · have ha' : p a = false := by simpa using ha
      rcases ih with ⟨pre, x, post, hl, hpre, hx⟩ | hnone
      · left
        refine ⟨a :: pre, x, post, by rw [hl]; rfl, ?_, hx⟩
        intro y hy
        rcases List.mem_cons.1 hy with h | h
        · rw [h]; exact ha'
        · exact hpre y h
      · right
        intro y hy
        rcases List.mem_cons.1 hy with h | h
        · rw [h]; exact ha'
        · exact hnone y h

theorem find_of_split {α : Type} (p : α → Bool) (pre post : List α) (x : α)
    (hpre : ∀ y ∈ pre, p y = false) (hx : p x = true) :
    (pre ++ x :: post).find? p = some x := by
  induction pre with
  | nil => simp [hx]
  | cons a pre ih =>
    have ha : p a = false := hpre a (List.mem_cons_self _ _)
    simp only [List.cons_append, List.find?_cons, ha]
    exact ih (fun y hy => hpre y (List.mem_cons_of_mem _ hy))

theorem find_of_none {α : Type} (p : α → Bool) (l : List α) (h : ∀ y ∈ l, p y = false) :
    l.find? p = none := by
  apply List.find?_eq_none.2
  intro y hy
  simp [h y hy]

theorem login_of_no_match (H : Host) (hH : LowerCaseLaws H) (nowIso : String) (store : Store)
    (email password : String) (hv : validateEmail email = true) (hp : password ≠ "")
    (hno : ∀ u ∈ store.users,
      ¬ (H.toLowerCase u.email = H.toLowerCase email ∧ u.password = password)) :
    login H nowIso store email password =
      ({ success := false, message := "Invalid email or password", user := none }, store) := by
  unfold login
  rw [trim_toLowerCase_email H hH email hv]
  have hfind : store.users.find? (fun u =>
      decide (H.toLowerCase u.email = H.toLowerCase email) && decide (u.password = password))
      = none := by
    apply find_of_none
    intro u hu
    have := hno u hu
    simpa using this
  simp only [hv, hp, hfind, Bool.not_true, Bool.false_eq_true, if_false]

theorem login_of_first_match (H : Host) (hH : LowerCaseLaws H) (nowIso : String)
    (store : Store) (email password : String) (hv : validateEmail email = true)
    (hp : password ≠ "") (pre post : List User) (u : User)
    (husers : store.users = pre ++ u :: post)
    (hpre : ∀ x ∈ pre,
      ¬ (H.toLowerCase x.email = H.toLowerCase email ∧ x.password = password))
    (hemail : H.toLowerCase u.email = H.toLowerCase email) (hpw : u.password = password) :
    login H nowIso store email password =
      ({ success := true, message := "Login successful!",
         user := some ⟨u.id, u.name, u.email, nowIso⟩ },
       { store with currentUser := some ⟨u.id, u.name, u.email, nowIso⟩ }) := by
  unfold login
  rw [trim_toLowerCase_email H hH email hv]
  have hfind : store.users.find? (fun u =>
      decide (H.toLowerCase u.email = H.toLowerCase email) && decide (u.password = password))
      = some u := by
    rw [husers]
    apply find_of_split
    · intro x hx
      have := hpre x hx
      simpa using this
    · simp [hemail, hpw]
  simp only [hv, hp, hfind, Bool.not_true, Bool.false_eq_true, if_false]

theorem register_fail_store (H : Host) (now : Int) (nowIso : String) (store : Store)
    (name email password : String)
    (h : (register H now nowIso store name email password).1.success = false) :
    (register H now nowIso store name email password).2 = store := by
  unfold register at h ⊢
  split_ifs at h ⊢ <;> rfl

theorem login_fail_store (H : Host) (nowIso : String) (store : Store)
    (email password : String)
    (h : (login H nowIso store email password).1.success = false) :
    (login H nowIso store email password).2 = store := by
  unfold login at h ⊢
  split_ifs at h ⊢
  · rfl
  · rfl
  · cases hfind : store.users.find? (fun u =>
        decide (H.toLowerCase u.email = trim (H.toLowerCase email)) &&
        decide (u.password = password)) with
    | none => rfl
    | some user =>
      rw [hfind] at h
      simp at h

theorem register_cart (H : Host) (now : Int) (nowIso : String) (store : Store)
    (name email password : String) :
    (register H now nowIso store name email password).2.cart = store.cart ∧
    (register H now nowIso store name email password).2.currentUser = store.currentUser := by
  unfold register
  split_ifs <;> exact ⟨rfl, rfl⟩

theorem login_cart (H : Host) (nowIso : String) (store : Store) (email password : String) :
    (login H nowIso store email password).2.cart = store.cart ∧
    (login H nowIso store email password).2.users = store.users := by
  unfold login
  split_ifs
  · exact ⟨rfl, rfl⟩
  · exact ⟨rfl, rfl⟩
  · cases store.users.find? (fun u =>
        decide (H.toLowerCase u.email = trim (H.toLowerCase email)) &&
        decide (u.password = password)) <;> exact ⟨rfl, rfl⟩

/-! ## The ASCII host satisfies the lower-casing laws -/

theorem toLower_cases (c : Char) :
    Char.toLower c = c ∨
      (65 ≤ c.toNat ∧ c.toNat ≤ 90 ∧ 97 ≤ (Char.toLower c).toNat ∧
        (Char.toLower c).toNat ≤ 122) := by
  unfold Char.toLower
  by_cases h : c.toNat ≥ 65 ∧ c.toNat ≤ 90
  · right
    simp only [h, and_self, if_true, true_and]
    obtain ⟨n, hn⟩ : ∃ n, c.toNat = n := ⟨_, rfl⟩
    rw [hn] at h ⊢
    obtain ⟨h1, h2⟩ := h
    interval_cases n <;> decide
  · left
    simp only [h, if_false]

theorem toNat_eq_of_eq (c d : Char) (h : c = d) : c.toNat = d.toNat := by rw [h]

theorem isWhiteSpace_of_printable (c : Char) (h : 33 ≤ c.toNat ∧ c.toNat ≤ 126) :
    isWhiteSpace c = false := by
  unfold isWhiteSpace
  simp only [Bool.or_eq_false_iff, decide_eq_false_iff_not, List.mem_cons, List.mem_singleton,
    List.not_mem_nil, or_false, Bool.and_eq_false_imp, decide_eq_true_eq]
  omega

theorem isWhiteSpace_toLower (c : Char) : isWhiteSpace (Char.toLower c) = isWhiteSpace c := by
  rcases toLower_cases c with h | ⟨h1, h2, h3, h4⟩
  · rw [h]
  · rw [isWhiteSpace_of_printable c (by omega),
      isWhiteSpace_of_printable (Char.toLower c) (by omega)]

theorem beq_toLower (c d : Char) (hd : d.toNat < 65) :
    (Char.toLower c == d) = (c == d) := by
  rcases toLower_cases c with h | ⟨h1, h2, h3, h4⟩
  · rw [h]
  · have hc : (c == d) = false := by
      simp only [beq_eq_false_iff_ne, ne_eq]
      intro heq
      have := toNat_eq_of_eq c d heq
      omega
    have hl : (Char.toLower c == d) = false := by
      simp only [beq_eq_false_iff_ne, ne_eq]
      intro heq
      have := toNat_eq_of_eq _ d heq
      omega
    rw [hc, hl]

theorem notSpaceOrAt_toLower (c : Char) : notSpaceOrAt (Char.toLower c) = notSpaceOrAt c := by
  unfold notSpaceOrAt
  rw [isWhiteSpace_toLower, beq_toLower c '@' (by decide)]

theorem toLower_toLower (c : Char) : Char.toLower (Char.toLower c) = Char.toLower c := by
  rcases toLower_cases c with h | ⟨_, _, h3, h4⟩
  · rw [h, h]
  · rcases toLower_cases (Char.toLower c) with h | ⟨h5, h6, _, _⟩
    · exact h
    · omega

theorem repRun_map (f : Char → Char) (p : Char → Bool) (hp : ∀ c, p (f c) = p c) :
    ∀ (s : List Char) (n : Nat), repRun p n (s.map f) = (repRun p n s).map (List.map f) := by
  intro s
  induction s with
  | nil => intro n; cases n <;> simp [repRun]
  | cons c u ih =>
    intro n
    cases n with
    | zero =>
      simp only [List.map_cons, repRun, hp]
      by_cases hc : p c = true
      · simp [hc, ih 0]
      · simp [hc]
    | succ n =>
      simp only [List.map_cons, repRun, hp]
      by_cases hc : p c = true
      · simp [hc, ih n]
      · simp [hc]

theorem run_cls_map (f : Char → Char) (p : Char → Bool) (hp : ∀ c, p (f c) = p c)
    (s : List Char) :
    (Regex.cls p).run (s.map f) = ((Regex.cls p).run s).map (List.map f) := by
  cases s with
  | nil => simp [Regex.run]
  | cons c u =>
    simp only [List.map_cons, Regex.run, hp]
    by_cases hc : p c = true
    · simp [hc]
    · simp [hc]

theorem run_seq_map (f : Char → Char) (r₁ r₂ : Regex)
    (h₁ : ∀ s, r₁.run (s.map f) = (r₁.run s).map (List.map f))
    (h₂ : ∀ s, r₂.run (s.map f) = (r₂.run s).map (List.map f)) (s : List Char) :
    (Regex.seq r₁ r₂).run (s.map f) = ((Regex.seq r₁ r₂).run s).map (List.map f) := by
  simp only [Regex.run, h₁, List.flatMap_map, List.map_flatMap, h₂]

theorem emailRegex_map_toLower (s : List Char) :
    emailRegex.run (s.map Char.toLower) = (emailRegex.run s).map (List.map Char.toLower) := by
  unfold emailRegex
  have hrep : ∀ s : List Char, (Regex.rep notSpaceOrAt 1).run (s.map Char.toLower) =
      ((Regex.rep notSpaceOrAt 1).run s).map (List.map Char.toLower) := by
    intro s
    simp only [Regex.run]
    exact repRun_map Char.toLower notSpaceOrAt notSpaceOrAt_toLower s 1
  have hat := run_cls_map Char.toLower (fun c => c == '@')
    (fun c => beq_toLower c '@' (by decide))
  have hdot := run_cls_map Char.toLower (fun c => c == '.')
    (fun c => beq_toLower c '.' (by decide))
  exact run_seq_map _ _ _ hrep (run_seq_map _ _ _ hat (run_seq_map _ _ _ hrep
    (run_seq_map _ _ _ hdot hrep))) s

theorem trim_map_toLower (d : List Char) :
    ((d.map Char.toLower).dropWhile isWhiteSpace).rdropWhile isWhiteSpace =
      ((d.dropWhile isWhiteSpace).rdropWhile isWhiteSpace).map Char.toLower := by
  have hcomp : isWhiteSpace ∘ Char.toLower = isWhiteSpace := by
    funext c
    exact isWhiteSpace_toLower c
  have hdrop : ∀ l : List Char, (l.map Char.toLower).dropWhile isWhiteSpace =
      (l.dropWhile isWhiteSpace).map Char.toLower := by
    intro l
    rw [List.dropWhile_map, hcomp]
  rw [hdrop]
  unfold List.rdropWhile
  rw [← List.map_reverse, hdrop, List.map_reverse]

theorem asciiHost_lowerCaseLaws : LowerCaseLaws asciiHost := by
  refine ⟨?_, ?_, ?_⟩
  · intro s
    show String.mk ((s.data.map Char.toLower).map Char.toLower) =
      String.mk (s.data.map Char.toLower)
    rw [List.map_map]
    congr 1
    apply List.map_congr_left
    intro c _
    exact toLower_toLower c
  · intro s hs
    have hcomm := trim_map_toLower s.data
    show trim (String.mk (s.data.map Char.toLower)) = String.mk (s.data.map Char.toLower)
    unfold trim at hs ⊢
    have hdata : (s.data.dropWhile isWhiteSpace).rdropWhile isWhiteSpace = s.data :=
      congrArg String.data hs
    show String.mk (((s.data.map Char.toLower).dropWhile isWhiteSpace).rdropWhile
      isWhiteSpace) = _
    rw [hcomm, hdata]
  · intro s
    unfold validateEmail Regex.test
    show (emailRegex.run (s.data.map Char.toLower)).any List.isEmpty = _
    rw [emailRegex_map_toLower, List.any_map]
    congr 1
    funext t
    cases t <;> rfl

theorem register_success (H : Host) (now : Int) (nowIso : String) (store : Store)
    (name email password : String)
    (h : (register H now nowIso store name email password).1.success = true) :
    validateName name = true ∧ validateEmail email = true ∧
      validatePassword password = true ∧ userExists H store.users email = false ∧
      (register H now nowIso store name email password).2 =
        { store with users := store.users ++
            [⟨now, trim name, trim (H.toLowerCase email), password, nowIso⟩] } := by
  unfold register at h ⊢
  split_ifs at h ⊢ with h1 h2 h3 h4
  refine ⟨by simpa using h1, by simpa using h2, by simpa using h3, by simpa using h4, rfl⟩

theorem register_of_duplicate (H : Host) (now : Int) (nowIso : String) (store : Store)
    (name email password : String) (hn : validateName name = true)
    (hv : validateEmail email = true) (hp : validatePassword password = true)
    (hex : userExists H store.users email = true) :
    register H now nowIso store name email password =
      ({ success := false, message := "An account with this email already exists",
         user := none }, store) := by
  unfold register
  simp only [hn, hv, hp, hex, Bool.not_true, Bool.false_eq_true, if_false, if_true]

theorem applyAuthOp_users (H : Host) (store : Store) (op : AuthOp) :
    ∃ extra, (applyAuthOp H store op).users = store.users ++ extra := by
  cases op with
  | register now nowIso name email password =>
    show ∃ extra, (register H now nowIso store name email password).2.users =
      store.users ++ extra
    unfold register
    split_ifs
    · exact ⟨[], by simp⟩
    · exact ⟨[], by simp⟩
    · exact ⟨[], by simp⟩
    · exact ⟨[], by simp⟩
    · exact ⟨_, rfl⟩
  | login nowIso email password =>
    exact ⟨[], by simp [applyAuthOp, (login_cart H nowIso store email password).2]⟩
  | logout => exact ⟨[], by simp [applyAuthOp, logout]⟩

theorem foldl_applyAuthOp_users (H : Host) (ops : List AuthOp) :
    ∀ store : Store, ∃ extra, (ops.foldl (applyAuthOp H) store).users = store.users ++ extra := by
  induction ops with
  | nil => intro store; exact ⟨[], by simp⟩
  | cons op ops ih =>
    intro store
    obtain ⟨e₁, h₁⟩ := applyAuthOp_users H store op
    obtain ⟨e₂, h₂⟩ := ih (applyAuthOp H store op)
    exact ⟨e₁ ++ e₂, by rw [List.foldl_cons, h₂, h₁, List.append_assoc]⟩

theorem not_userExists (H : Host) (users : List User) (email : String)
    (h : userExists H users email = false) :
    ∀ u ∈ users, H.toLowerCase u.email ≠ H.toLowerCase email := by
  intro u hu heq
  unfold userExists at h
  have : users.any (fun user => decide (H.toLowerCase user.email = H.toLowerCase email))
      = true := List.any_eq_true.2 ⟨u, hu, by simpa using heq⟩
  rw [this] at h
  exact Bool.noConfusion h

theorem toLowerCase_stored_email (H : Host) (hH : LowerCaseLaws H) (email : String)
    (hv : validateEmail email = true) :
    trim (H.toLowerCase email) = H.toLowerCase email ∧
    H.toLowerCase (trim (H.toLowerCase email)) = H.toLowerCase email := by
  have h := trim_toLowerCase_email H hH email hv
  exact ⟨h, by rw [h, hH.1]⟩

theorem validateEmail_of_same_lower (H : Host) (hH : LowerCaseLaws H) (e₁ e₂ : String)
    (hv : validateEmail e₁ = true) (he : H.toLowerCase e₂ = H.toLowerCase e₁) :
    validateEmail e₂ = true := by
  rw [← hH.2.2 e₂, he, hH.2.2 e₁, hv]

/-! ## Claims on accounts -/

/-- C14: for every stored users list, every well-formed email and every non-empty
password, if no stored account has both that email (compared after lower-casing)
and exactly that password, `Auth.login` returns success false with the message
`Invalid email or password` and leaves the store as it is. The returned object is
the same on every store without such an account, whether an account with that
email exists or not. -/
theorem login_invalid_credentials (H : Host) (hH : LowerCaseLaws H) (nowIso : String)
    (store : Store) (email password : String) (hv : validateEmail email = true)
    (hp : password ≠ "")
    (hno : ∀ u ∈ store.users,
      ¬ (H.toLowerCase u.email = H.toLowerCase email ∧ u.password = password)) :
    login H nowIso store email password =
      ({ success := false, message := "Invalid email or password", user := none }, store) ∧
    (∀ store₂ : Store,
      (∀ u ∈ store₂.users,
        ¬ (H.toLowerCase u.email = H.toLowerCase email ∧ u.password = password)) →
      (login H nowIso store₂ email password).1 = (login H nowIso store email password).1) := by
  refine ⟨login_of_no_match H hH nowIso store email password hv hp hno, ?_⟩
  intro store₂ hno₂
  rw [login_of_no_match H hH nowIso store email password hv hp hno,
    login_of_no_match H hH nowIso store₂ email password hv hp hno₂]

/-- C14, at an instance: a wrong password for Ann's email and a login with an
unknown email return the same object. -/
theorem login_invalid_credentials_witness :
    login asciiHost "t2" annStore "Ann@x.org" "wrong-pw" =
      ({ success := false, message := "Invalid email or password", user := none },
        annStore) ∧
    (login asciiHost "t2" { annStore with users := [] } "Ann@x.org" "wrong-pw").1 =
      (login asciiHost "t2" annStore "Ann@x.org" "wrong-pw").1 :=
  ⟨(login_invalid_credentials asciiHost asciiHost_lowerCaseLaws "t2" annStore "Ann@x.org"
      "wrong-pw" (by decide) (by decide) (by decide)).1,
   (login_invalid_credentials asciiHost asciiHost_lowerCaseLaws "t2" annStore "Ann@x.org"
      "wrong-pw" (by decide) (by decide) (by decide)).2 { annStore with users := [] }
      (by decide)⟩

/-- C16: for every stored users list, every well-formed email and every non-empty
password, `Auth.login` returns success true if and only if some stored account has
the given email up to letter case and exactly the given password. On success the
session is overwritten with the id, name and email of the first such account, so
`isLoggedIn()` is true afterwards, and false after `logout()`. -/
theorem login_spec (H : Host) (hH : LowerCaseLaws H) (nowIso : String) (store : Store)
    (email password : String) (hv : validateEmail email = true) (hp : password ≠ "") :
    ((login H nowIso store email password).1.success = true ↔
      ∃ u ∈ store.users,
        H.toLowerCase u.email = H.toLowerCase email ∧ u.password = password) ∧
    (∀ pre u post, store.users = pre ++ u :: post →
      (∀ x ∈ pre, ¬ (H.toLowerCase x.email = H.toLowerCase email ∧ x.password = password)) →
      H.toLowerCase u.email = H.toLowerCase email → u.password = password →
      (login H nowIso store email password).2 =
        { store with currentUser := some ⟨u.id, u.name, u.email, nowIso⟩ } ∧
      (login H nowIso store email password).1.user = some ⟨u.id, u.name, u.email, nowIso⟩) ∧
    ((login H nowIso store email password).1.success = true →
      isLoggedIn (login H nowIso store email password).2 = true ∧
      isLoggedIn (logout (login H nowIso store email password).2).2 = false) := by
  have hsplit := first_split (fun u : User =>
    decide (H.toLowerCase u.email = H.toLowerCase email) && decide (u.password = password))
    store.users
  refine ⟨?_, ?_, ?_⟩
  · constructor
    · intro hs
      by_contra hno
      have hno' : ∀ u ∈ store.users,
          ¬ (H.toLowerCase u.email = H.toLowerCase email ∧ u.password = password) :=
        fun u hu hm => hno ⟨u, hu, hm⟩
      rw [login_of_no_match H hH nowIso store email password hv hp hno'] at hs
      simp at hs
    · rintro ⟨u, hu, hm⟩
      rcases hsplit with ⟨pre, x, post, husers, hpre, hx⟩ | hnone
      · simp only [Bool.and_eq_true, decide_eq_true_eq] at hx
        rw [login_of_first_match H hH nowIso store email password hv hp pre post x husers
          (fun y hy => by simpa using hpre y hy) hx.1 hx.2]
      · have := hnone u hu
        simp [hm.1, hm.2] at this
  · intro pre u post husers hpre hemail hpw
    rw [login_of_first_match H hH nowIso store email password hv hp pre post u husers hpre
      hemail hpw]
    exact ⟨rfl, rfl⟩
  · intro hs
    rcases hsplit with ⟨pre, x, post, husers, hpre, hx⟩ | hnone
    · simp only [Bool.and_eq_true, decide_eq_true_eq] at hx
      rw [login_of_first_match H hH nowIso store email password hv hp pre post x husers
        (fun y hy => by simpa using hpre y hy) hx.1 hx.2]
      exact ⟨rfl, rfl⟩
    · rw [login_of_no_match H hH nowIso store email password hv hp
        (fun u hu => by simpa using hnone u hu)] at hs
      simp at hs

/-- C16, at an instance: Ann logs in with her email in capitals; she is logged in
afterwards and logged out after `logout()`. -/
theorem login_spec_witness :
    (login asciiHost "t2" annStore "ANN@X.ORG" "secret1").1.success = true ∧
    isLoggedIn (login asciiHost "t2" annStore "ANN@X.ORG" "secret1").2 = true ∧
    isLoggedIn (logout (login asciiHost "t2" annStore "ANN@X.ORG" "secret1").2).2 = false :=
  have h := login_spec asciiHost asciiHost_lowerCaseLaws "t2" annStore "ANN@X.ORG" "secret1"
    (by decide) (by decide)
  have hs : (login asciiHost "t2" annStore "ANN@X.ORG" "secret1").1.success = true :=
    h.1.2 ⟨⟨1700, "Ann", "ann@x.org", "secret1", "t1"⟩, by decide, by decide, rfl⟩
  ⟨hs, h.2.2 hs⟩

/-- C17: failed account operations change no state. If `Auth.register` returns
success false the store, and so the users list, is unchanged; if `Auth.login`
returns success false the store, and so the session, is unchanged, an existing
session staying in place. Neither operation changes the cart, on success or on
failure; `register` never touches the session and `login` never touches the users. -/
theorem auth_failure_no_change (H : Host) (now : Int) (nowIso : String) (store : Store)
    (name email password : String) :
    ((register H now nowIso store name email password).1.success = false →
      (register H now nowIso store name email password).2 = store) ∧
    ((login H nowIso store email password).1.success = false →
      (login H nowIso store email password).2 = store) ∧
    (register H now nowIso store name email password).2.cart = store.cart ∧
    (login H nowIso store email password).2.cart = store.cart ∧
    (register H now nowIso store name email password).2.currentUser = store.currentUser ∧
    (login H nowIso store email password).2.users = store.users :=
  ⟨register_fail_store H now nowIso store name email password,
   login_fail_store H nowIso store email password,
   (register_cart H now nowIso store name email password).1,
   (login_cart H nowIso store email password).1,
   (register_cart H now nowIso store name email password).2,
   (login_cart H nowIso store email password).2⟩

/-- C13: if `Auth.register(n1, e1, p1)` succeeds then, after any further calls of
`Auth`, `Auth.register(n2, e2, p2)` with a valid name, a valid password and an email
equal to `e1` up to letter case returns success false with the message `An account
with this email already exists` and leaves the store, and so the users list, as it
is. -/
theorem register_duplicate_email (H : Host) (hH : LowerCaseLaws H) (now₁ : Int)
    (nowIso₁ : String) (store : Store) (n₁ e₁ p₁ : String)
    (h₁ : (register H now₁ nowIso₁ store n₁ e₁ p₁).1.success = true)
    (ops : List AuthOp) (now₂ : Int) (nowIso₂ n₂ e₂ p₂ : String)
    (hn : validateName n₂ = true) (hp : validatePassword p₂ = true)
    (he : H.toLowerCase e₂ = H.toLowerCase e₁) :
    register H now₂ nowIso₂
        (ops.foldl (applyAuthOp H) (register H now₁ nowIso₁ store n₁ e₁ p₁).2) n₂ e₂ p₂ =
      ({ success := false, message := "An account with this email already exists",
         user := none },
       ops.foldl (applyAuthOp H) (register H now₁ nowIso₁ store n₁ e₁ p₁).2) := by
  obtain ⟨_, hv₁, _, _, hstore⟩ := register_success H now₁ nowIso₁ store n₁ e₁ p₁ h₁
  obtain ⟨extra, hextra⟩ := foldl_applyAuthOp_users H ops
    (register H now₁ nowIso₁ store n₁ e₁ p₁).2
  apply register_of_duplicate H now₂ nowIso₂ _ n₂ e₂ p₂ hn
    (validateEmail_of_same_lower H hH e₁ e₂ hv₁ he) hp
  unfold userExists
  rw [List.any_eq_true]
  refine ⟨⟨now₁, trim n₁, trim (H.toLowerCase e₁), p₁, nowIso₁⟩, ?_, ?_⟩
  · rw [hextra, hstore]
    simp
  · simp only [decide_eq_true_eq]
    rw [(toLowerCase_stored_email H hH e₁ hv₁).2, he]

/-- C13, at an instance: after Ann registers with `Ann@X.org` and logs in, a second
registration with `ANN@x.ORG` is refused as a duplicate. -/
theorem register_duplicate_email_witness :
    (register asciiHost 1700 "t1" ⟨[], none, []⟩ "Ann" "Ann@X.org" "secret1").1.success
      = true ∧
    (register asciiHost 1800 "t3"
      ([AuthOp.login "t2" "ann@x.org" "secret1"].foldl (applyAuthOp asciiHost)
        (register asciiHost 1700 "t1" ⟨[], none, []⟩ "Ann" "Ann@X.org" "secret1").2)
      "Bob" "ANN@x.ORG" "hunter22").1.message =
      "An account with this email already exists" :=
  ⟨by decide,
   congrArg (fun r => r.1.message)
    (register_duplicate_email asciiHost asciiHost_lowerCaseLaws 1700 "t1" ⟨[], none, []⟩
      "Ann" "Ann@X.org" "secret1" (by decide) [AuthOp.login "t2" "ann@x.org" "secret1"]
      1800 "t3" "Bob" "ANN@x.ORG" "hunter22" (by decide) (by decide) (by decide))⟩

/-- C20: if `Auth.register(name, email, password)` returns success true, then
`Auth.login` called right after it with the same password and with the same email,
or with an email equal to it up to letter case, returns success true. A successful
registration means that no account with that email existed before, and the session
then holds the id given at registration, the trimmed name and the lower-cased
email. -/
theorem register_then_login (H : Host) (hH : LowerCaseLaws H) (now : Int)
    (nowIso nowIso₂ : String) (store : Store) (name email password : String)
    (h : (register H now nowIso store name email password).1.success = true) :
    (login H nowIso₂ (register H now nowIso store name email password).2 email
      password).1.success = true ∧
    (∀ email', H.toLowerCase email' = H.toLowerCase email →
      (login H nowIso₂ (register H now nowIso store name email password).2 email'
        password).1.success = true ∧
      (login H nowIso₂ (register H now nowIso store name email password).2 email'
        password).2.currentUser =
          some ⟨now, trim name, H.toLowerCase email, nowIso₂⟩) ∧
    (∀ u ∈ store.users, H.toLowerCase u.email ≠ H.toLowerCase email) := by
  obtain ⟨_, hv, hpw, hex, hstore⟩ := register_success H now nowIso store name email password h
  have hno := not_userExists H store.users email hex
  have hstored := toLowerCase_stored_email H hH email hv
  have key : ∀ email', H.toLowerCase email' = H.toLowerCase email →
      login H nowIso₂ (register H now nowIso store name email password).2 email' password =
        ({ success := true, message := "Login successful!",
           user := some ⟨now, trim name, trim (H.toLowerCase email), nowIso₂⟩ },
         { (register H now nowIso store name email password).2 with
           currentUser := some ⟨now, trim name, trim (H.toLowerCase email), nowIso₂⟩ }) := by
    intro email' he
    apply login_of_first_match H hH nowIso₂ _ email' password
      (validateEmail_of_same_lower H hH email email' hv he)
      (ne_empty_of_validatePassword password hpw) store.users []
      ⟨now, trim name, trim (H.toLowerCase email), password, nowIso⟩
    · rw [hstore]
    · intro x hx hm
      exact hno x hx (hm.1.trans he)
    · show H.toLowerCase (trim (H.toLowerCase email)) = H.toLowerCase email'
      rw [hstored.2, he]
    · rfl
  refine ⟨?_, ?_, hno⟩
  · rw [key email rfl]
  · intro email' he
    rw [key email' he, hstored.1]
    exact ⟨rfl, rfl⟩

/-- C20, at an instance: Ann registers with `Ann@X.org` and logs in with
`ANN@x.ORG`; the session holds her trimmed name and the lower-cased email. -/
theorem register_then_login_witness :
    (register asciiHost 1700 "t1" ⟨[], none, []⟩ " Ann " "Ann@X.org" "secret1").1.success
      = true ∧
    (login asciiHost "t2"
      (register asciiHost 1700 "t1" ⟨[], none, []⟩ " Ann " "Ann@X.org" "secret1").2
      "ANN@x.ORG" "secret1").2.currentUser = some ⟨1700, "Ann", "ann@x.org", "t2"⟩ :=
  ⟨by decide,
   ((register_then_login asciiHost asciiHost_lowerCaseLaws 1700 "t1" "t2" ⟨[], none, []⟩
      " Ann " "Ann@X.org" "secret1" (by decide)).2.1 "ANN@x.ORG" (by decide)).2⟩

/-! ## Array identity: the product list is never written -/

namespace Heap

theorem read_assignView_old (st : ProductSearch) (xs : List Product) (a : Nat)
    (ha : a < st.arrays.length) : read (assignView st xs) a = read st a := by
  unfold read assignView
  simp only [List.getD_eq_getElem?_getD]
  rw [List.getElem?_append_left ha]

theorem read_assignView_new (st : ProductSearch) (xs : List Product) :
    read (assignView st xs) (assignView st xs).filteredProducts = xs := by
  unfold read assignView
  simp [List.getD_eq_getElem?_getD]

theorem read_sortProducts_other (H : Host) (st : ProductSearch) (m : String) (a : Nat)
    (ha : a ≠ st.filteredProducts) : read (sortProducts H st m) a = read st a := by
  unfold sortProducts read
  simp only [List.getD_eq_getElem?_getD]
  rw [List.getElem?_set]
  simp [Ne.symm ha]

theorem read_sortProducts_view (H : Host) (st : ProductSearch) (m : String)
    (hv : st.filteredProducts < st.arrays.length) :
    read (sortProducts H st m) st.filteredProducts =
      arraySort (sortComparator H m) (read st st.filteredProducts) := by
  unfold sortProducts read
  simp only [List.getD_eq_getElem?_getD]
  rw [List.getElem?_set]
  simp [hv]

theorem separate_assignView (st : ProductSearch) (xs : List Product)
    (hp : st.products < st.arrays.length) : Separate (assignView st xs) := by
  unfold Separate assignView
  simp only [List.length_append, List.length_singleton]
  omega

theorem contents_assignView (st : ProductSearch) (xs : List Product)
    (hp : st.products < st.arrays.length) :
    contents (assignView st xs) = { contents st with filteredProducts := xs } := by
  have h1 := read_assignView_old st xs st.products hp
  have h2 := read_assignView_new st xs
  unfold contents
  rw [h2]
  have h3 : (assignView st xs).products = st.products := rfl
  rw [h3, h1]
  rfl

theorem separate_sortProducts (H : Host) (st : ProductSearch) (m : String)
    (h : Separate st) : Separate (sortProducts H st m) := by
  unfold Separate sortProducts at *
  simp only [List.length_set]
  exact h

theorem contents_sortProducts (H : Host) (st : ProductSearch) (m : String)
    (h : Separate st) :
    contents (sortProducts H st m) = PhumGame.sortProducts H (contents st) m := by
  have h1 := read_sortProducts_other H st m st.products h.2.2
  have h2 := read_sortProducts_view H st m h.2.1
  unfold contents PhumGame.sortProducts
  have h3 : (sortProducts H st m).products = st.products := rfl
  have h4 : (sortProducts H st m).filteredProducts = st.filteredProducts := rfl
  rw [h3, h4, h1, h2]
  rfl

theorem applyFilters_spec (H : Host) (st : ProductSearch) (h : Separate st) :
    Separate (applyFilters H st) ∧ (applyFilters H st).products = st.products ∧
      contents (applyFilters H st) = PhumGame.applyFilters H (contents st) := by
  unfold applyFilters PhumGame.applyFilters applySorting PhumGame.applySorting
  by_cases hc : st.categoryFilter = "all"
  · have hc' : (contents st).categoryFilter = "all" := hc
    simp only [hc, hc', ne_eq, not_true_eq_false, if_false]
    exact ⟨separate_sortProducts H st _ h, rfl, contents_sortProducts H st _ h⟩
  · have hc' : ¬ (contents st).categoryFilter = "all" := hc
    simp only [hc, hc', ne_eq, not_false_eq_true, if_true]
    refine ⟨separate_sortProducts H _ _ (separate_assignView st _ h.1), rfl, ?_⟩
    rw [contents_sortProducts H _ _ (separate_assignView st _ h.1),
      contents_assignView st _ h.1]
    rfl

theorem applySearchTerm_spec (H : Host) (st : ProductSearch) (h : Separate st) :
    Separate (applySearchTerm H st) ∧ (applySearchTerm H st).products = st.products ∧
      contents (applySearchTerm H st) = PhumGame.applySearchTerm H (contents st) := by
  unfold applySearchTerm PhumGame.applySearchTerm applySorting PhumGame.applySorting
  by_cases hc : trim (H.toLowerCase st.searchInput) = ""
  · have hc' : trim (H.toLowerCase (contents st).searchInput) = "" := hc
    simp only [hc, hc', ne_eq, not_true_eq_false, if_false]
    exact ⟨separate_sortProducts H st _ h, rfl, contents_sortProducts H st _ h⟩
  · have hc' : ¬ trim (H.toLowerCase (contents st).searchInput) = "" := hc
    simp only [hc, hc', ne_eq, not_false_eq_true, if_true]
    refine ⟨separate_sortProducts H _ _ (separate_assignView st _ h.1), rfl, ?_⟩
    rw [contents_sortProducts H _ _ (separate_assignView st _ h.1),
      contents_assignView st _ h.1]
    rfl

theorem searchProducts_spec (H : Host) (st : ProductSearch) (s : String) (h : Separate st) :
    Separate (searchProducts H st s) ∧ (searchProducts H st s).products = st.products ∧
      contents (searchProducts H st s) = PhumGame.searchProducts H (contents st) s := by
  unfold searchProducts PhumGame.searchProducts
  by_cases hc : trim (H.toLowerCase s) = ""
  · simp only [hc, if_true]
    obtain ⟨h1, h2, h3⟩ := applyFilters_spec H _ (separate_assignView st (read st st.products) h.1)
    refine ⟨h1, h2, ?_⟩
    rw [h3, contents_assignView st _ h.1]
    rfl
  · simp only [hc, if_false]
    obtain ⟨h1, h2, h3⟩ := applyFilters_spec H _ (separate_assignView st
      ((read st st.products).filter (matchesTerm H (trim (H.toLowerCase s)))) h.1)
    refine ⟨h1, h2, ?_⟩
    rw [h3, contents_assignView st _ h.1]
    rfl

theorem filterByCategory_spec (H : Host) (st : ProductSearch) (c : String)
    (h : Separate st) :
    Separate (filterByCategory H st c) ∧ (filterByCategory H st c).products = st.products ∧
      contents (filterByCategory H st c) = PhumGame.filterByCategory H (contents st) c := by
  unfold filterByCategory PhumGame.filterByCategory
  by_cases hc : c = "all"
  · simp only [hc, if_true]
    obtain ⟨h1, h2, h3⟩ := applySearchTerm_spec H _
      (separate_assignView st (read st st.products) h.1)
    refine ⟨h1, h2, ?_⟩
    rw [h3, contents_assignView st _ h.1]
    rfl
  · simp only [hc, if_false]
    obtain ⟨h1, h2, h3⟩ := applySearchTerm_spec H _ (separate_assignView st
      ((read st st.products).filter (fun product => decide (product.category = c))) h.1)
    refine ⟨h1, h2, ?_⟩
    rw [h3, contents_assignView st _ h.1]
    rfl

theorem handleEvent_spec (H : Host) (st : ProductSearch) (e : ViewEvent) (h : Separate st) :
    Separate (handleEvent H st e) ∧ (handleEvent H st e).products = st.products ∧
      contents (handleEvent H st e) = PhumGame.handleEvent H (contents st) e := by
  cases e with
  | search v => exact searchProducts_spec H { st with searchInput := v } v h
  | category v => exact filterByCategory_spec H { st with categoryFilter := v } v h
  | sort v =>
    exact ⟨separate_sortProducts H { st with sortFilter := v } v h, rfl,
      contents_sortProducts H { st with sortFilter := v } v h⟩

theorem runEvents_spec (H : Host) (es : List ViewEvent) :
    ∀ st : ProductSearch, Separate st →
      Separate (runEvents H st es) ∧ (runEvents H st es).products = st.products ∧
        contents (runEvents H st es) = PhumGame.runEvents H (contents st) es := by
  induction es with
  | nil => intro st h; exact ⟨h, rfl, rfl⟩
  | cons e es ih =>
    intro st h
    obtain ⟨h1, h2, h3⟩ := handleEvent_spec H st e h
    obtain ⟨h4, h5, h6⟩ := ih (handleEvent H st e) h1
    refine ⟨h4, h5.trans h2, ?_⟩
    show contents (runEvents H (handleEvent H st e) es) =
      PhumGame.runEvents H (PhumGame.handleEvent H (contents st) e) es
    rw [h6, h3]

theorem loadProducts_spec (st : ProductSearch) (P : List Product) :
    Separate (loadProducts st P) ∧
      contents (loadProducts st P) =
        PhumGame.loadProducts P st.searchInput st.categoryFilter st.sortFilter := by
  have hlt : ({ st with arrays := st.arrays ++ [P], products := st.arrays.length } :
      ProductSearch).products <
      ({ st with arrays := st.arrays ++ [P], products := st.arrays.length } :
      ProductSearch).arrays.length := by
    simp
  have hread : read { st with arrays := st.arrays ++ [P], products := st.arrays.length }
      st.arrays.length = P := by
    unfold read
    simp [List.getD_eq_getElem?_getD]
  unfold loadProducts
  refine ⟨separate_assignView _ _ hlt, ?_⟩
  simp only
  rw [contents_assignView _ _ hlt, hread]
  unfold contents
  simp only [hread]
  rfl

theorem sortProducts_aliased_example :
    read (sortProducts asciiHost
      { arrays := [catalog], products := 0, filteredProducts := 0, searchInput := "",
        categoryFilter := "all", sortFilter := "default" } "price-low") 0 =
      [blitz, chrono] := by
  norm_num [read, sortProducts, arraySort, sortComparator, List.insertionSort,
    List.orderedInsert, catalog, chrono, blitz]

/-- C19: `searchProducts`, `filterByCategory` and `sortProducts` leave the source
product list unchanged. With the arrays told apart by address: from every state in
which `products` and `filteredProducts` are two different arrays, each of the three
methods, for every argument, keeps the address held by `products` and the content
of that array, and the two fields still point to different arrays. `loadProducts`
produces such a state, since the view is a spread copy; so `sortProducts` called
right after the load, and every sequence of calls after it, leaves the product
list equal to the loaded `P`, same products in the same order. -/
theorem products_unchanged (H : Host) (st₀ : ProductSearch) (P : List Product) :
    (∀ st : ProductSearch, Separate st → ∀ arg : String,
      ((searchProducts H st arg).products = st.products ∧
        read (searchProducts H st arg) st.products = read st st.products ∧
        Separate (searchProducts H st arg)) ∧
      ((filterByCategory H st arg).products = st.products ∧
        read (filterByCategory H st arg) st.products = read st st.products ∧
        Separate (filterByCategory H st arg)) ∧
      ((sortProducts H st arg).products = st.products ∧
        read (sortProducts H st arg) st.products = read st st.products ∧
        Separate (sortProducts H st arg))) ∧
    (Separate (loadProducts st₀ P) ∧
      read (loadProducts st₀ P) (loadProducts st₀ P).products = P) ∧
    (∀ mode : String,
      read (sortProducts H (loadProducts st₀ P) mode) (loadProducts st₀ P).products = P) ∧
    (∀ es : List ViewEvent,
      (runEvents H (loadProducts st₀ P) es).products = (loadProducts st₀ P).products ∧
      read (runEvents H (loadProducts st₀ P) es) (loadProducts st₀ P).products = P) := by
  have hload := loadProducts_spec st₀ P
  have hP : read (loadProducts st₀ P) (loadProducts st₀ P).products = P :=
    congrArg PhumGame.ProductSearch.products hload.2
  refine ⟨?_, ⟨hload.1, hP⟩, ?_, ?_⟩
  · intro st h arg
    obtain ⟨s1, s2, s3⟩ := searchProducts_spec H st arg h
    obtain ⟨c1, c2, c3⟩ := filterByCategory_spec H st arg h
    refine ⟨⟨s2, ?_, s1⟩, ⟨c2, ?_, c1⟩, ⟨rfl, read_sortProducts_other H st arg _ h.2.2,
      separate_sortProducts H st arg h⟩⟩
    · have h3 := congrArg PhumGame.ProductSearch.products s3
      rw [searchProducts_eq] at h3
      have h4 : read (searchProducts H st arg) (searchProducts H st arg).products =
          read st st.products := h3
      rw [s2] at h4
      exact h4
    · have h3 := congrArg PhumGame.ProductSearch.products c3
      rw [filterByCategory_eq] at h3
      have h4 : read (filterByCategory H st arg) (filterByCategory H st arg).products =
          read st st.products := h3
      rw [c2] at h4
      exact h4
  · intro mode
    rw [read_sortProducts_other H _ mode _ hload.1.2.2]
    exact hP
  · intro es
    obtain ⟨_, h2, h3⟩ := runEvents_spec H es (loadProducts st₀ P) hload.1
    refine ⟨h2, ?_⟩
    have := congrArg PhumGame.ProductSearch.products h3
    rw [PhumGame.runEvents_products] at this
    rw [← h2]
    exact this.trans hP

/-- C19, at an instance: the scenario catalog is loaded and the view is sorted by
ascending price at once; the view becomes Blitz then Chrono, the product list
stays Chrono then Blitz. -/
theorem products_unchanged_witness :
    read (sortProducts asciiHost (loadProducts (initial "" "all" "default") catalog)
        "price-low")
      (loadProducts (initial "" "all" "default") catalog).products = catalog :=
  (products_unchanged asciiHost (initial "" "all" "default") catalog).2.2.1 "price-low"

end Heap

/-! ## Double precision: lemmas on rounding -/

namespace Float64

theorem roundHalfEven_intCast (n : Int) : roundHalfEven (n : ℚ) = n := by
  unfold roundHalfEven
  simp

theorem ulpExponent_le (x : ℚ) (k : Int) (hx : x ≠ 0) (hk : -1074 ≤ k)
    (hlt : |x| < 2 ^ (53 + k)) : ulpExponent x ≤ k := by
  unfold ulpExponent
  have hpos : 0 < |x| := abs_pos.2 hx
  have hlog : Int.log 2 |x| < 53 + k := by
    have := (Int.lt_zpow_iff_log_lt (R := ℚ) (b := 2) (by norm_num) hpos).1 (by exact_mod_cast hlt)
    exact this
  have : max (Int.log 2 |x|) (-1022) ≤ 52 + k := max_le (by omega) (by omega)
  omega

theorem nearest_dyadic (m k : Int) (hm : |m| < 2 ^ 53) (hk : -1074 ≤ k) :
    nearest ((m : ℚ) * 2 ^ k) = (m : ℚ) * 2 ^ k := by
  by_cases h0 : m = 0
  · subst h0
    unfold nearest
    simp [roundHalfEven]
  · have hx : (m : ℚ) * 2 ^ k ≠ 0 := by
      have : (m : ℚ) ≠ 0 := by exact_mod_cast h0
      positivity
    have hlt : |(m : ℚ) * 2 ^ k| < 2 ^ (53 + k) := by
      rw [abs_mul, abs_of_pos (by positivity : (0:ℚ) < 2 ^ k), zpow_add₀ (by norm_num)]
      apply mul_lt_mul_of_pos_right _ (by positivity)
      have h1 : ((|m| : Int) : ℚ) < ((2 ^ 53 : Int) : ℚ) := by exact_mod_cast hm
      rw [Int.cast_abs] at h1
      norm_num at h1 ⊢
      exact h1
    have hu := ulpExponent_le _ k hx hk hlt
    unfold nearest
    obtain ⟨d, hd⟩ : ∃ d : ℕ, k = ulpExponent ((m : ℚ) * 2 ^ k) + d :=
      ⟨(k - ulpExponent ((m : ℚ) * 2 ^ k)).toNat, by omega⟩
    set u := ulpExponent ((m : ℚ) * 2 ^ k) with hudef
    have hdiv : (m : ℚ) * 2 ^ k / 2 ^ u = ((m * 2 ^ d : Int) : ℚ) := by
      rw [hd, zpow_add₀ (by norm_num), zpow_natCast]
      field_simp
      ring
    rw [hdiv, roundHalfEven_intCast]
    rw [hd, zpow_add₀ (by norm_num), zpow_natCast]
    push_cast
    ring


theorem nearest_intCast (n : Int) (hn : |n| ≤ 2 ^ 53) : nearest (n : ℚ) = n := by
  rcases lt_or_eq_of_le hn with h | h
  · have := nearest_dyadic n 0 h (by norm_num)
    simpa using this
  · have h2 : n = 2 ^ 52 * 2 ∨ n = -(2 ^ 52) * 2 := by
      rcases abs_cases n with ⟨h3, _⟩ | ⟨h3, _⟩ <;> omega
    rcases h2 with h2 | h2
    · have := nearest_dyadic (2 ^ 52) 1 (by norm_num) (by norm_num)
      rw [h2]
      norm_num at this ⊢
      exact this
    · have := nearest_dyadic (-(2 ^ 52)) 1 (by norm_num) (by norm_num)
      rw [h2]
      norm_num at this ⊢
      exact this

theorem round_of_nearest (x : ℚ) (hx : nearest x = x) (hlt : |x| < 2 ^ (1024 : ℕ)) :
    round x = some x := by
  unfold round
  rw [hx, if_pos hlt]

theorem log_eq_of_bounds (x : ℚ) (e : Int) (hle : 2 ^ e ≤ |x|) (hlt : |x| < 2 ^ (e + 1)) :
    Int.log 2 |x| = e := by
  have hpos : 0 < |x| := lt_of_lt_of_le (by positivity) hle
  have h1 : e ≤ Int.log 2 |x| :=
    (Int.zpow_le_iff_le_log (R := ℚ) (b := 2) (by norm_num) hpos).1 (by exact_mod_cast hle)
  have h2 : Int.log 2 |x| < e + 1 :=
    (Int.lt_zpow_iff_log_lt (R := ℚ) (b := 2) (by norm_num) hpos).1 (by exact_mod_cast hlt)
  omega

theorem nearest_of_bounds (x : ℚ) (e n : Int) (hle : 2 ^ e ≤ |x|) (hlt : |x| < 2 ^ (e + 1))
    (he : -1022 ≤ e) (hr : roundHalfEven (x / 2 ^ (e - 52)) = n) :
    nearest x = (n : ℚ) * 2 ^ (e - 52) := by
  have hu : ulpExponent x = e - 52 := by
    unfold ulpExponent
    rw [log_eq_of_bounds x e hle hlt, max_eq_left he]
  unfold nearest
  rw [hu, hr]

theorem roundHalfEven_tie (x : ℚ) (f : Int) (hx : x = (f : ℚ) + 1 / 2) :
    roundHalfEven x = if f % 2 = 0 then f else f + 1 := by
  have hfloor : ⌊x⌋ = f := by
    rw [Int.floor_eq_iff, hx]
    constructor <;> norm_num
  unfold roundHalfEven
  rw [hfloor, hx]
  norm_num

theorem round_intCast (n : Int) (hn : |n| ≤ 2 ^ 53) : round (n : ℚ) = some (n : ℚ) := by
  apply round_of_nearest _ (nearest_intCast n hn)
  have h1 : ((|n| : Int) : ℚ) ≤ ((2 ^ 53 : Int) : ℚ) := by exact_mod_cast hn
  rw [Int.cast_abs] at h1
  calc |(n : ℚ)| ≤ ((2 ^ 53 : Int) : ℚ) := h1
    _ < 2 ^ (1024 : ℕ) := by norm_num

theorem addOne_of_safe (q : Int) (hlo : -(2 ^ 53) ≤ q) (hhi : q < 2 ^ 53) :
    addOne q = q + 1 := by
  unfold addOne
  have h : nearest (((q + 1 : Int)) : ℚ) = ((q + 1 : Int) : ℚ) :=
    nearest_intCast (q + 1) (by rw [abs_le]; constructor <;> omega)
  push_cast at h
  rw [h]
  have : ((q : ℚ) + 1) = ((q + 1 : Int) : ℚ) := by push_cast; rfl
  rw [this, Int.floor_intCast]

theorem nearest_maxed : nearest (9007199254740992 + 1) = 9007199254740992 := by
  have hr : roundHalfEven ((9007199254740992 + 1) / 2 ^ ((53 : Int) - 52)) =
      4503599627370496 := by
    rw [roundHalfEven_tie _ 4503599627370496 (by norm_num)]
    norm_num
  rw [nearest_of_bounds _ 53 4503599627370496 (by norm_num) (by norm_num) (by norm_num) hr]
  norm_num

theorem addOne_maxed : addOne 9007199254740992 = 9007199254740992 := by
  unfold addOne
  have h : ((9007199254740992 : Int) : ℚ) + 1 = 9007199254740992 + 1 := by norm_num
  rw [h, nearest_maxed]
  exact Int.floor_intCast 9007199254740992

theorem addItem_rounded_of_line (cart : List CartLine) (p : Product) (l : CartLine)
    (hl : l ∈ cart) (hid : l.id = p.id) :
    addItem cart p = updateFirst (fun item => decide (item.id = p.id))
      (fun existingItem => { existingItem with quantity := addOne existingItem.quantity })
      cart := by
  obtain ⟨item, hfind⟩ := find_some_of_line cart p.id l hl hid
  unfold addItem
  rw [hfind]

theorem addItem_rounded_of_no_line (cart : List CartLine) (p : Product)
    (h : ∀ x ∈ cart, x.id ≠ p.id) :
    addItem cart p =
      cart ++ [{ id := p.id, name := p.name, price := p.price, category := p.category,
                 quantity := 1 }] := by
  unfold addItem
  rw [find_none_of_no_line cart p.id h]

theorem foldl_total_append (cart : List CartLine) (item : CartLine) (acc : Option ℚ) :
    (cart ++ [item]).foldl
        (fun total item => add total (mul (some item.price) (some (item.quantity : ℚ)))) acc =
      add (cart.foldl
        (fun total item => add total (mul (some item.price) (some (item.quantity : ℚ)))) acc)
        (mul (some item.price) (some (item.quantity : ℚ))) := by
  rw [List.foldl_append]
  rfl

theorem foldl_total_exact (cart : List CartLine) :
    (∀ pre item post, cart = pre ++ item :: post →
      round (item.price * (item.quantity : ℚ)) = some (item.price * (item.quantity : ℚ)) ∧
      round ((pre.map (fun l => l.price * (l.quantity : ℚ))).sum +
          item.price * (item.quantity : ℚ)) =
        some ((pre.map (fun l => l.price * (l.quantity : ℚ))).sum +
          item.price * (item.quantity : ℚ))) →
    cart.foldl
        (fun total item => add total (mul (some item.price) (some (item.quantity : ℚ))))
        (some 0) =
      some ((cart.map (fun l => l.price * (l.quantity : ℚ))).sum) := by
  induction cart using List.reverseRecOn with
  | nil => intro _; rfl
  | append_singleton cart item ih =>
    intro h
    have hcart := ih (fun pre x post hsplit =>
      h pre x (post ++ [item]) (by rw [hsplit]; simp))
    obtain ⟨h1, h2⟩ := h cart item [] rfl
    rw [foldl_total_append, hcart]
    show add (some _) (round _) = _
    rw [h1]
    show round _ = _
    rw [h2, List.map_append, List.sum_append]
    simp

theorem updateFirst_congr {α : Type} (p : α → Bool) (f g : α → α) (xs : List α)
    (h : ∀ x ∈ xs, f x = g x) : updateFirst p f xs = updateFirst p g xs := by
  induction xs with
  | nil => rfl
  | cons x xs ih =>
    unfold updateFirst
    rw [h x (List.mem_cons_self _ _), ih (fun y hy => h y (List.mem_cons_of_mem _ hy))]

theorem addItem_eq_exact (cart : List CartLine) (p : Product)
    (h : ∀ l ∈ cart, -(2 ^ 53) ≤ l.quantity ∧ l.quantity < 2 ^ 53) :
    addItem cart p = PhumGame.addItem cart p := by
  unfold addItem PhumGame.addItem
  cases cart.find? (fun item => decide (item.id = p.id)) with
  | none => rfl
  | some _ =>
    apply updateFirst_congr
    intro x hx
    show ({ x with quantity := addOne x.quantity } : CartLine) =
      { x with quantity := x.quantity + 1 }
    rw [addOne_of_safe x.quantity (h x hx).1 (h x hx).2]

theorem calculateTotal_eq_exact (store : Store)
    (h : ∀ pre item post, store.cart = pre ++ item :: post →
      round (item.price * (item.quantity : ℚ)) = some (item.price * (item.quantity : ℚ)) ∧
      round ((pre.map (fun l => l.price * (l.quantity : ℚ))).sum +
          item.price * (item.quantity : ℚ)) =
        some ((pre.map (fun l => l.price * (l.quantity : ℚ))).sum +
          item.price * (item.quantity : ℚ))) :
    (calculateTotal store).1 = some (PhumGame.calculateTotal store.cart) := by
  rw [calculateTotal_eq_sum]
  exact foldl_total_exact store.cart h

/-! ## Claims on the cart in double precision -/

/-- C7, as stated, fails: `existingItem.quantity += 1` is an addition of doubles. On a
cart whose line for the product has the quantity 9007199254740992 (`2^53`, which
`updateQuantity` stores when asked), `addItem` saves the cart as it was: the sum
9007199254740993 is not a double and rounds back to `2^53`. -/
theorem addItem_counterexample :
    addItem [maxedLine] scenarioProduct = [maxedLine] ∧
    maxedLine.id = scenarioProduct.id ∧
    updateQuantity [scenarioLine] 1 9007199254740992 = [maxedLine] := by
  refine ⟨?_, rfl, ?_⟩
  · rw [addItem_rounded_of_line [maxedLine] scenarioProduct maxedLine (by simp) rfl]
    simp only [updateFirst, maxedLine, scenarioProduct, decide_True, if_true, addOne_maxed]
  · simp [updateQuantity, updateFirst, scenarioLine, maxedLine]

/-- C7 (amended): `Cart.addItem(p)`. If the cart has a line with the id of `p`, the
first such line gets the quantity `quantity + 1` as doubles add it, which is
exactly one more whenever the quantity is an integer from `-2^53` to `2^53 - 1`;
the line keeps its name, price and category whatever `p` holds, no line is added
and every other line is unchanged. Otherwise exactly one line, made of the id,
name, price and category of `p` with quantity 1, is appended and the lines already
there are unchanged. Every cart falls under one of the two cases. -/
theorem addItem_spec (cart : List CartLine) (p : Product) :
    (∀ pre l post, cart = pre ++ l :: post → (∀ x ∈ pre, x.id ≠ p.id) → l.id = p.id →
      addItem cart p =
        pre ++ { id := l.id, name := l.name, price := l.price, category := l.category,
                 quantity := addOne l.quantity } :: post ∧
      (-(2 ^ 53) ≤ l.quantity → l.quantity < 2 ^ 53 →
        addItem cart p =
          pre ++ { id := l.id, name := l.name, price := l.price, category := l.category,
                   quantity := l.quantity + 1 } :: post)) ∧
    ((∀ x ∈ cart, x.id ≠ p.id) →
      addItem cart p =
        cart ++ [{ id := p.id, name := p.name, price := p.price, category := p.category,
                   quantity := 1 }]) ∧
    ((∃ pre l post, cart = pre ++ l :: post ∧ (∀ x ∈ pre, x.id ≠ p.id) ∧ l.id = p.id) ∨
      (∀ x ∈ cart, x.id ≠ p.id)) := by
  refine ⟨?_, addItem_rounded_of_no_line cart p, first_line_split cart p.id⟩
  intro pre l post hsplit hpre hl
  have hmem : l ∈ cart := by rw [hsplit]; simp
  have h : addItem cart p =
      pre ++ { id := l.id, name := l.name, price := l.price, category := l.category,
               quantity := addOne l.quantity } :: post := by
    rw [addItem_rounded_of_line cart p l hmem hl, hsplit]
    apply updateFirst_split
    · intro x hx
      simpa using hpre x hx
    · simpa using hl
  refine ⟨h, fun hlo hhi => ?_⟩
  rw [h, addOne_of_safe l.quantity hlo hhi]

/-- C7 (amended), at an instance: adding Blitz, now cheaper in the catalog, to a
cart that holds Chrono and three Blitz raises the Blitz quantity to 4 and keeps
the stored price. -/
theorem addItem_spec_witness :
    addItem [chronoLine, blitzLine] blitzReduced =
      [chronoLine,
       { id := 2, name := "Blitz", price := 1999 / 100, category := "Action",
         quantity := 3 + 1 }] :=
  ((addItem_spec [chronoLine, blitzLine] blitzReduced).1 [chronoLine] blitzLine [] rfl
    (by simp [chronoLine, blitzReduced, blitz]) rfl).2 (by decide) (by decide)

/-- C10, as stated, fails: the products and the partial sums are rounded to
doubles. On the cart of one line of quantity 3 whose price is the double written
`0.1`, `calculateTotal()` returns 5404319552844596 / 2^54, the double written
`0.30000000000000004`, which is neither that price times 3 nor 3/10. -/
theorem calculateTotal_counterexample :
    (calculateTotal { users := [], currentUser := none, cart := [tenthLine] }).1 =
      some (5404319552844596 / 18014398509481984) ∧
    (5404319552844596 / 18014398509481984 : ℚ) ≠
      ([tenthLine].map (fun item => item.price * (item.quantity : ℚ))).sum ∧
    (5404319552844596 / 18014398509481984 : ℚ) ≠ 3 / 10 := by
  have hprod : round (3602879701896397 / 36028797018963968 * ((3 : Int) : ℚ)) =
      some (5404319552844596 / 18014398509481984) := by
    have hr : roundHalfEven (3602879701896397 / 36028797018963968 * ((3 : Int) : ℚ) /
        2 ^ ((-2 : Int) - 52)) = 5404319552844596 := by
      rw [roundHalfEven_tie _ 5404319552844595 (by norm_num)]
      norm_num
    have hn := nearest_of_bounds (3602879701896397 / 36028797018963968 * ((3 : Int) : ℚ))
      (-2) 5404319552844596 (le_abs.2 (Or.inl (by norm_num)))
      (abs_lt.2 ⟨by norm_num, by norm_num⟩) (by norm_num) hr
    have hval : ((5404319552844596 : Int) : ℚ) * 2 ^ ((-2 : Int) - 52) =
        5404319552844596 / 18014398509481984 := by norm_num
    rw [hval] at hn
    unfold round
    rw [hn, if_pos (abs_lt.2 ⟨by norm_num, by norm_num⟩)]
  have hsum : round (0 + 5404319552844596 / 18014398509481984) =
      some (5404319552844596 / 18014398509481984) := by
    have hd := nearest_dyadic 5404319552844596 (-54) (by norm_num) (by norm_num)
    have hx : ((5404319552844596 : Int) : ℚ) * 2 ^ (-54 : Int) =
        0 + 5404319552844596 / 18014398509481984 := by norm_num
    rw [hx] at hd
    have h := round_of_nearest _ hd (abs_lt.2 ⟨by norm_num, by norm_num⟩)
    rw [h, zero_add]
  refine ⟨?_, ?_, by norm_num⟩
  · show add (some 0) (mul (some tenthLine.price) (some (tenthLine.quantity : ℚ))) = _
    show add (some 0) (round (3602879701896397 / 36028797018963968 * ((3 : Int) : ℚ))) = _
    rw [hprod]
    exact hsum
  · simp only [tenthLine, List.map_cons, List.map_nil, List.sum_cons, List.sum_nil]
    norm_num

/-- C10 (amended): `Cart.calculateTotal()` returns 0 for the empty cart and otherwise
the sum of the products price times quantity as doubles compute it: from the
first line to the last, each product and each partial sum rounded to the nearest
double, the result not being finite once one of them overflows. It is the exact
sum over all cart lines of price times quantity whenever every product and every
partial sum is itself a double. The store, and so the cart, is left as it was. -/
theorem calculateTotal_spec (store : Store) :
    (calculateTotal store).2 = store ∧
    (store.cart = [] → (calculateTotal store).1 = some 0) ∧
    (∀ item : CartLine,
      (calculateTotal { store with cart := store.cart ++ [item] }).1 =
        add (calculateTotal store).1 (mul (some item.price) (some (item.quantity : ℚ)))) ∧
    ((∀ pre item post, store.cart = pre ++ item :: post →
        round (item.price * (item.quantity : ℚ)) = some (item.price * (item.quantity : ℚ)) ∧
        round ((pre.map (fun l => l.price * (l.quantity : ℚ))).sum +
            item.price * (item.quantity : ℚ)) =
          some ((pre.map (fun l => l.price * (l.quantity : ℚ))).sum +
            item.price * (item.quantity : ℚ))) →
      (calculateTotal store).1 =
        some ((store.cart.map (fun l => l.price * (l.quantity : ℚ))).sum)) := by
  refine ⟨rfl, ?_, ?_, ?_⟩
  · intro h
    unfold calculateTotal
    rw [h]
    rfl
  · intro item
    exact foldl_total_append store.cart item (some 0)
  · intro h
    exact foldl_total_exact store.cart h

/-- C10 (amended), at an instance: a cart of two copies of the product priced 10
totals exactly 20. -/
theorem calculateTotal_spec_witness :
    (calculateTotal { users := [], currentUser := none, cart := [scenarioLine] }).1 =
      some 20 := by
  have h := (calculateTotal_spec
    { users := [], currentUser := none, cart := [scenarioLine] }).2.2.2 (by
      intro pre item post hsplit
      have hpre : pre = [] := by
        cases pre with
        | nil => rfl
        | cons a t =>
          have := congrArg List.length hsplit
          simp at this
      subst hpre
      have hitem : item = scenarioLine := by
        have := hsplit
        simp only [List.nil_append, List.cons.injEq] at this
        exact this.1.symm
      subst hitem
      have h20 : round (((20 : Int) : ℚ)) = some (((20 : Int) : ℚ)) :=
        round_intCast 20 (by norm_num)
      have hval : scenarioLine.price * (scenarioLine.quantity : ℚ) = ((20 : Int) : ℚ) := by
        simp [scenarioLine]
        norm_num
      simp only [List.map_nil, List.sum_nil, zero_add]
      rw [hval]
      exact ⟨h20, h20⟩)
  rw [h]
  simp [scenarioLine]
  norm_num

end Float64

end PhumGame
